import Mathlib

/-!
Shallow embedding of kitty's remote-control protocol engine
(`kitty/remote_control.py`) and proofs of the specification claims.

The Python module is embedded as executable Lean definitions:

* JSON values are modelled by `JVal` (numbers restricted to integers; the
  envelopes this protocol exchanges carry only strings, integers, booleans,
  null, arrays and objects).
* `handle_cmd` (the server-side dispatcher) is embedded as a pure state
  transformer over the `active_async_requests` registry, which is modelled
  as an insertion-ordered association list, exactly the observable
  behaviour of a Python `dict`.
* `send_response_to_client` (the async completion-delivery path) and the
  client driver's timeout/response handling from `main` are embedded the
  same way.
* `encode_send`, the socket receive path's frame extraction
  (`SocketIO.simple_recv`'s regex search) and `json.loads` are embedded
  character-by-character for the framing round-trip law.
-/

set_option maxRecDepth 8000

namespace Kitty

/-- JSON values as exchanged by the protocol. Numbers are restricted to
integers: the envelopes of this protocol carry no fractional numbers, and
floating point is outside the scope of the model. Objects are modelled as
insertion-ordered key/value lists, which is the observable behaviour of a
Python `dict` (unique keys, insertion order preserved). -/
inductive JVal where
  | null : JVal
  | bool (b : Bool) : JVal
  | int (n : Int) : JVal
  | str (s : List Char) : JVal
  | arr (elems : List JVal) : JVal
  | obj (fields : List (List Char × JVal)) : JVal

/-- Python `tuple` less-than: lexicographic, a strict prefix is smaller. -/
def tupLT : List Int → List Int → Bool
  | [], [] => false
  | [], _ :: _ => true
  | _ :: _, [] => false
  | a :: as, b :: bs => if a < b then true else if b < a then false else tupLT as bs

/-- Python `tuple` greater-than, used by the version gate
`tuple(v)[:2] > version[:2]`. -/
def tupGT (a b : List Int) : Bool := tupLT b a

/-- Python dict assignment `d[k] = v`: update in place when the key is
present (its position in insertion order is unchanged), append otherwise. -/
def pyDictSet {α : Type} (k : String) (v : α) (d : List (String × α)) :
    List (String × α) :=
  if d.any (fun e => e.1 == k) then
    d.map (fun e => if e.1 == k then (k, v) else e)
  else d ++ [(k, v)]

/-- Key lookup in a dict. -/
def dictLookup {α : Type} (k : String) : List (String × α) → Option α
  | [] => none
  | (a, v) :: es => if a == k then some v else dictLookup k es

/-- Python `d.pop(k, None)`: the removed value (or `none`) and the remaining
dict. When the key is absent the dict is unchanged. -/
def pyDictPop {α : Type} (k : String) (d : List (String × α)) :
    Option α × List (String × α) :=
  match dictLookup k d with
  | none => (none, d)
  | some v => (some v, d.filter (fun e => !(e.1 == k)))

/-- Keys of a dict in insertion order. -/
def keysOf {α : Type} (d : List (String × α)) : List String := d.map Prod.fst

/-- The `active_async_requests` registry: async id → registration timestamp
(`monotonic()` is modelled as an abstract `Nat` supplied per call). -/
abbrev Registry := List (String × Nat)

/-- The bits of a `RemoteCommand` descriptor that `handle_cmd` consults. -/
structure CmdDesc where
  no_response : Bool
deriving DecidableEq, Repr

/-- A decoded command envelope, the result of `json.loads(serialized_cmd)`
in `handle_cmd`. `payload` is `none` when the `payload` key is absent or
falsy (the code runs `cmd.get('payload') or {}`). `asyncId` is the string
`str(cmd.get('async', ''))`. `cancel_async` records the value of the
`cancel_async` key when the key is present, `none` when absent: the code
tests only key presence (`'cancel_async' in cmd`). -/
structure CmdEnvelope where
  cmd : String
  version : List Int
  payload : Option (List (String × JVal))
  no_response : Bool
  asyncId : String
  cancel_async : Option JVal

/-- Outcome of one `response_from_kitty` call, supplied as an oracle:
the command may raise, return the `NoResponse` sentinel, return the
`AsyncResponse` sentinel, or return a plain value (`none` for Python
`None`). -/
inductive ExecResult where
  | raises : ExecResult
  | noResp : ExecResult
  | asyncResp : ExecResult
  | value (v : Option JVal) : ExecResult

/-- A response dict built by `handle_cmd`: `{'ok': ..., ['error': ...],
['data': ...]}`. -/
structure RespDict where
  ok : Bool
  error : Option String
  data : Option JVal

/-- What `handle_cmd` returns (or raises) to its caller. -/
inductive RCResult where
  | retNone : RCResult
  | retDict (d : RespDict) : RCResult
  | retAsync : RCResult
  | raiseKeyError : RCResult
  | raiseExec : RCResult

/-- Whether an `RCResult` is a wire response dict. -/
def RCResult.isWire : RCResult → Bool
  | .retDict _ => true
  | _ => false

/-- Full observable outcome of one `handle_cmd` call: the registry after
the call, the returned/raised result, whether `response_from_kitty` was
invoked, and the payload passed to `cancel_async_request` when the
cancellation hook was invoked. -/
structure HandleOutcome where
  registry : Registry
  result : RCResult
  executed : Bool
  cancelHook : Option (List (String × JVal))

/-- The compatibility error message of `handle_cmd`. -/
def versionMismatchMsg : String :=
  "The kitty client you are using to send remote commands is newer than this kitty instance. This is not supported."

/-- Tail of `handle_cmd` from the `try:` block on: run the command and
normalize its result (`remote_control.py` lines 57-72). -/
def finishCmd (c : CmdDesc) (no_response : Bool) (exec : ExecResult)
    (reg : Registry) : HandleOutcome :=
  match exec with
  | .raises =>
    if no_response then ⟨reg, .retNone, true, none⟩
    else ⟨reg, .raiseExec, true, none⟩
  | .noResp => ⟨reg, .retNone, true, none⟩
  | .asyncResp => ⟨reg, .retAsync, true, none⟩
  | .value v =>
    if !c.no_response && !no_response then ⟨reg, .retDict ⟨true, none, v⟩, true, none⟩
    else ⟨reg, .retNone, true, none⟩

/-- Embedding of `handle_cmd` (`remote_control.py` lines 35-72) acting on
an already-decoded envelope. `serverVersion` is the local `version`
constant, `resolve` is `command_for_name` (`none` models the `KeyError`),
`exec` is the outcome of `response_from_kitty`, and `now` is the value of
`monotonic()` for this call. -/
def handle_cmd (serverVersion : List Int) (resolve : String → Option CmdDesc)
    (exec : ExecResult) (now : Nat) (peer_id : Int)
    (env : CmdEnvelope) (reg : Registry) : HandleOutcome :=
  let no_response := env.no_response
  if tupGT (env.version.take 2) (serverVersion.take 2) then
    if no_response then ⟨reg, .retNone, false, none⟩
    else ⟨reg, .retDict ⟨false, some versionMismatchMsg, none⟩, false, none⟩
  else
    match resolve env.cmd with
    | none => ⟨reg, .raiseKeyError, false, none⟩
    | some c =>
      let payload0 := env.payload.getD []
      let payload1 := pyDictSet "peer_id" (.int peer_id) payload0
      if env.asyncId ≠ "" then
        let payload2 := pyDictSet "async_id" (.str env.asyncId.data) payload1
        if env.cancel_async.isSome then
          ⟨(pyDictPop env.asyncId reg).2, .retNone, false, some payload2⟩
        else
          let reg1 := pyDictSet env.asyncId now reg
          let reg2 := if reg1.length > 32 then reg1.tail else reg1
          finishCmd c no_response exec reg2
      else
        finishCmd c no_response exec reg

/-- Observable outcome of `send_response_to_client`: registry after the
call, data handed to `send_data_to_peer`, data handed to
`window.send_cmd_response`, and whether the `window_id_map` lookup raised. -/
structure DeliverOutcome where
  registry : Registry
  sentToPeer : Option (Int × RespDict)
  sentToWindow : Option (Int × RespDict)
  raised : Bool

/-- Embedding of `send_response_to_client` (`remote_control.py` lines
187-200). `wmap` models `get_boss().window_id_map`: `none` means the key
is missing (the subscription raises), `some none` means the stored window
is `None`, `some (some ())` a live window. `data` is the Python value of
the `data` argument (`JVal.null` for its `None` default). -/
def send_response_to_client (wmap : Int → Option (Option Unit))
    (data : JVal) (error : String) (peer_id : Int) (window_id : Int)
    (async_id : String) (reg : Registry) : DeliverOutcome :=
  match pyDictPop async_id reg with
  | (none, _) => ⟨reg, none, none, false⟩
  | (some _, reg') =>
    let response : RespDict :=
      if error ≠ "" then ⟨false, some error, none⟩ else ⟨true, none, some data⟩
    if peer_id > 0 then ⟨reg', some (peer_id, response), none, false⟩
    else if window_id > 0 then
      match wmap window_id with
      | none => ⟨reg', none, none, true⟩
      | some none => ⟨reg', none, none, false⟩
      | some (some _) => ⟨reg', none, some (window_id, response), false⟩
    else ⟨reg', none, none, false⟩

/-- One registry-touching call: a `handle_cmd` dispatch or a
`send_response_to_client` completion delivery. -/
inductive RegOp where
  | handle (serverVersion : List Int) (resolve : String → Option CmdDesc)
      (exec : ExecResult) (now : Nat) (peer_id : Int) (env : CmdEnvelope) : RegOp
  | deliver (wmap : Int → Option (Option Unit)) (data : JVal) (error : String)
      (peer_id : Int) (window_id : Int) (async_id : String) : RegOp

/-- Effect of one call on the `active_async_requests` registry. -/
def RegOp.apply : RegOp → Registry → Registry
  | .handle sv res exec now peer env, reg =>
    (handle_cmd sv res exec now peer env reg).registry
  | .deliver wmap d e p w aid, reg =>
    (send_response_to_client wmap d e p w aid reg).registry

/-- Registry after a sequence of calls. -/
def runOps : List RegOp → Registry → Registry
  | [], reg => reg
  | op :: ops, reg => runOps ops (op.apply reg)

/-! ### Client driver (`main`, lines 203-258) -/

/-- The `send` dict built by `create_basic_command`, as mutated by `main`'s
timeout handler. `cancel_async` is `true` when the `cancel_async` key has
been set. -/
structure SendEnvelope where
  cmd : String
  version : List Int
  no_response : Bool
  payload : Option JVal
  async : Option String
  cancel_async : Bool

/-- User-visible outcome of the tail of `main`. -/
inductive ClientOutcome where
  | success : ClientOutcome
  | printedData (d : JVal) : ClientOutcome
  | exitError (tbPrinted : Bool) (msg : JVal) : ClientOutcome
  | exitData (s : List Char) : ClientOutcome
  | exitTimeout (msg : String) : ClientOutcome
  | raisedException : ClientOutcome

/-- The timeout message raised by `main`. -/
def timeoutMsg (response_timeout : Nat) : String :=
  "Timed out after " ++ toString response_timeout ++ " seconds waiting for response from kitty"

/-- A call to `do_io`: the envelope sent, the `no_response` argument and
the `response_timeout` argument. -/
structure IOCall where
  envelope : SendEnvelope
  no_response : Bool
  timeout : Nat

/-- Outcome of `main`'s timeout handler plus the calls it makes. -/
structure TimeoutHandling where
  sent : List IOCall
  outcome : ClientOutcome

/-- Embedding of `main`'s `except (TimeoutError, socket.timeout)` handler
(`remote_control.py` lines 243-247): the original envelope loses its
`payload` key, gains `cancel_async = True`, and is sent through
`do_io(to, send, True, 10)`; `cancelSendRaises` tells whether that send
itself raises. The handler is not wrapped in any further try/except. -/
def main_on_timeout (send : SendEnvelope) (response_timeout : Nat)
    (cancelSendRaises : Bool) : TimeoutHandling :=
  let send1 : SendEnvelope := { send with payload := none, cancel_async := true }
  if cancelSendRaises then ⟨[⟨send1, true, 10⟩], .raisedException⟩
  else ⟨[⟨send1, true, 10⟩], .exitTimeout (timeoutMsg response_timeout)⟩

/-- The decoded response dict as `main` sees it (lines 248-258). `ok` is
the truthiness of `response.get('ok')`; `data` is the Python value of
`response.get('data')`, where `none` covers both an absent key and a JSON
`null` (both give Python `None`); `error` is `response['error']` (`none`
when the key is missing, in which case the subscription raises). -/
structure ClientResponse where
  ok : Bool
  tb : Option JVal
  error : Option JVal
  data : Option JVal

/-- Python truthiness of a JSON-decoded value. -/
def pyTruthy : JVal → Bool
  | .null => false
  | .bool b => b
  | .int n => n != 0
  | .str s => !s.isEmpty
  | .arr xs => !xs.isEmpty
  | .obj kvs => !kvs.isEmpty

/-- Embedding of `main`'s response interpretation (`remote_control.py`
lines 248-258), given the descriptor's `string_return_is_error` flag and
the request-level `no_response` flag. -/
def main_interpret (string_return_is_error : Bool) (no_response : Bool)
    (r : ClientResponse) : ClientOutcome :=
  if no_response then .success
  else if !r.ok then
    match r.error with
    | none => .raisedException
    | some e => .exitError ((r.tb.map pyTruthy).getD false) e
  else
    match r.data with
    | none => .success
    | some d =>
      if string_return_is_error then
        match d with
        | .str s => .exitData s
        | _ => .printedData d
      else .printedData d

/-! ### JSON serialization (`json.dumps` with default options, as used by
`encode_send`) -/

/-- Lowercase hex digit, as CPython's encoder emits in `\uXXXX` escapes. -/
def hexDigitChar (n : Nat) : Char :=
  if n < 10 then Char.ofNat (48 + n) else Char.ofNat (87 + n)

/-- Four-digit hex rendering of `n < 0x10000`. -/
def toHex4 (n : Nat) : List Char :=
  [hexDigitChar (n / 4096 % 16), hexDigitChar (n / 256 % 16),
   hexDigitChar (n / 16 % 16), hexDigitChar (n % 16)]

/-- CPython's `py_encode_basestring_ascii` escaping of one character:
backslash, quote and the named control characters get two-character
escapes, every other character outside printable ASCII (`0x20`-`0x7e`)
becomes `\uXXXX` (a surrogate pair for astral characters), and printable
ASCII is emitted verbatim. -/
def escapeChar (c : Char) : List Char :=
  if c = '"' then ['\\', '"']
  else if c = '\\' then ['\\', '\\']
  else if c.toNat = 8 then ['\\', 'b']
  else if c.toNat = 12 then ['\\', 'f']
  else if c.toNat = 10 then ['\\', 'n']
  else if c.toNat = 13 then ['\\', 'r']
  else if c.toNat = 9 then ['\\', 't']
  else if c.toNat < 32 ∨ 126 < c.toNat then
    if c.toNat < 65536 then '\\' :: 'u' :: toHex4 c.toNat
    else
      ('\\' :: 'u' :: toHex4 (55296 + (c.toNat - 65536) / 1024)) ++
      ('\\' :: 'u' :: toHex4 (56320 + (c.toNat - 65536) % 1024))
  else [c]

/-- Escape every character of a string body. -/
def escList : List Char → List Char
  | [] => []
  | c :: cs => escapeChar c ++ escList cs

/-- A JSON string literal: quote, escaped body, quote. -/
def encodeStr (s : List Char) : List Char := '"' :: (escList s ++ ['"'])

/-- Decimal digits of a natural number. -/
def natChars (n : Nat) : List Char :=
  if h : n < 10 then [Char.ofNat (48 + n)]
  else natChars (n / 10) ++ [Char.ofNat (48 + n % 10)]
termination_by n
decreasing_by exact Nat.div_lt_self (by omega) (by omega)

/-- Decimal rendering of an integer, as `json.dumps` prints Python ints. -/
def intChars : Int → List Char
  | .ofNat n => natChars n
  | .negSucc m => '-' :: natChars (m + 1)

mutual

/-- `json.dumps(v)` with CPython's defaults: `ensure_ascii=True` and
separators `', '` and `': '`. -/
def dumps : JVal → List Char
  | .null => 'n' :: 'u' :: 'l' :: 'l' :: []
  | .bool true => 't' :: 'r' :: 'u' :: 'e' :: []
  | .bool false => 'f' :: 'a' :: 'l' :: 's' :: 'e' :: []
  | .int i => intChars i
  | .str s => encodeStr s
  | .arr xs => '[' :: (dumpsArr xs ++ [']'])
  | .obj kvs => '\x7b' :: (dumpsObj kvs ++ ['\x7d'])

/-- Array elements joined by `', '`. -/
def dumpsArr : List JVal → List Char
  | [] => []
  | [x] => dumps x
  | x :: y :: xs => dumps x ++ ',' :: ' ' :: dumpsArr (y :: xs)

/-- Object entries `key: value` joined by `', '`. -/
def dumpsObj : List (List Char × JVal) → List Char
  | [] => []
  | [(k, v)] => encodeStr k ++ ':' :: ' ' :: dumps v
  | (k, v) :: e :: kvs =>
    encodeStr k ++ ':' :: ' ' :: dumps v ++ ',' :: ' ' :: dumpsObj (e :: kvs)

end

/-- The escape-sequence header `ESC P @kitty-cmd` of the wire frame. -/
def dcsHeader : List Char :=
  ['\x1b', 'P', '@', 'k', 'i', 't', 't', 'y', '-', 'c', 'm', 'd']

/-- Embedding of `encode_send` (`remote_control.py` lines 84-86):
`b'\x1bP' + ('@kitty-cmd' + json.dumps(send)).encode('ascii') + b'\x1b\\'`.
Characters stand for the transmitted bytes; the serialized JSON is proved
ASCII below, so the `'ascii'` encoding is the identity on it. -/
def encode_send (v : JVal) : List Char := dcsHeader ++ dumps v ++ ['\x1b', '\\']

/-! ### JSON parsing (`json.loads`, as used by the receive path) -/

/-- Value of a hex digit, either case. -/
def hexVal (c : Char) : Option Nat :=
  let n := c.toNat
  if 48 ≤ n ∧ n ≤ 57 then some (n - 48)
  else if 97 ≤ n ∧ n ≤ 102 then some (n - 87)
  else if 65 ≤ n ∧ n ≤ 70 then some (n - 55)
  else none

/-- Parse exactly four hex digits. -/
def parseHex4 : List Char → Option (Nat × List Char)
  | a :: b :: c :: d :: rest =>
    match hexVal a, hexVal b, hexVal c, hexVal d with
    | some va, some vb, some vc, some vd =>
      some (va * 4096 + vb * 256 + vc * 16 + vd, rest)
    | _, _, _, _ => none
  | _ => none

/-- The character with code point `n`, when `n` is a Unicode scalar value.
(Python strings can also hold lone surrogates; the model rejects them,
which only narrows the parser on inputs the encoder never produces.) -/
def mkChar (n : Nat) : Option Char :=
  if n.isValidChar then some (Char.ofNat n) else none

/-- The short escapes accepted after a backslash by `json.loads`. -/
def escLookup (e : Char) : Option Char :=
  if e = '"' then some '"'
  else if e = '\\' then some '\\'
  else if e = '/' then some '/'
  else if e = 'b' then some (Char.ofNat 8)
  else if e = 'f' then some (Char.ofNat 12)
  else if e = 'n' then some (Char.ofNat 10)
  else if e = 'r' then some (Char.ofNat 13)
  else if e = 't' then some (Char.ofNat 9)
  else none

/-- Prepend a decoded character to a string-parse result. -/
def consStr (c : Char) : Option (List Char × List Char) →
    Option (List Char × List Char)
  | none => none
  | some (s, r) => some (c :: s, r)

/-- Decode a `\uXXXX` escape (CPython's surrogate-pair combination): a
high surrogate must be followed by a second `\u` escape carrying a low
surrogate, other code points stand alone; `k` continues parsing after the
escape. (Python strings can also hold lone surrogates; the model rejects
them, which only narrows the parser on inputs the encoder never
produces.) -/
def parseUEsc (k : List Char → Option (List Char × List Char))
    (rest2 : List Char) : Option (List Char × List Char) :=
  match parseHex4 rest2 with
  | none => none
  | some (n, rest3) =>
    if 55296 ≤ n ∧ n ≤ 56319 then
      match rest3 with
      | '\\' :: 'u' :: rest4 =>
        match parseHex4 rest4 with
        | none => none
        | some (m, rest5) =>
          if 56320 ≤ m ∧ m ≤ 57343 then
            match mkChar (65536 + (n - 55296) * 1024 + (m - 56320)) with
            | none => none
            | some ch => consStr ch (k rest5)
          else none
      | _ => none
    else if 56320 ≤ n ∧ n ≤ 57343 then none
    else
      match mkChar n with
      | none => none
      | some ch => consStr ch (k rest3)

/-- Decode one backslash escape; `k` continues parsing after it. -/
def parseEsc (k : List Char → Option (List Char × List Char)) :
    List Char → Option (List Char × List Char)
  | [] => none
  | e :: rest2 =>
    if e = 'u' then parseUEsc k rest2
    else
      match escLookup e with
      | none => none
      | some ch => consStr ch (k rest2)

/-- Parse a JSON string body after the opening quote (CPython's
`scanstring` with `strict=True`): literal characters below `0x20` are
rejected, short escapes and `\uXXXX` escapes are decoded, and the closing
quote ends the string. The fuel only has to exceed the number of decoded
characters. -/
def parseStringBody : Nat → List Char → Option (List Char × List Char)
  | 0, _ => none
  | _ + 1, [] => none
  | fuel + 1, c :: rest =>
    if c = '"' then some ([], rest)
    else if c = '\\' then parseEsc (parseStringBody fuel) rest
    else if c.toNat < 32 then none
    else consStr c (parseStringBody fuel rest)

/-- Decimal digit test. -/
def isDigit (c : Char) : Bool := 48 ≤ c.toNat ∧ c.toNat ≤ 57

/-- Consume a run of decimal digits, accumulating their value. -/
def parseDigits (acc : Nat) : List Char → Nat × List Char
  | [] => (acc, [])
  | c :: rest =>
    if isDigit c then parseDigits (acc * 10 + (c.toNat - 48)) rest
    else (acc, c :: rest)

/-- Parse the integer part of a JSON number: `0` (with no further digits
consumed, as CPython's `NUMBER_RE` does) or a nonzero digit followed by a
digit run. -/
def parseNatNum : List Char → Option (Nat × List Char)
  | [] => none
  | c :: rest =>
    if c = '0' then some (0, rest)
    else if isDigit c then some (parseDigits (c.toNat - 48) rest)
    else none

/-- Parse a JSON number. The model covers integers only: a fraction or
exponent part makes it fail, while `json.loads` would build a float —
floating point is outside the scope of the model, and the encoder side
never emits such numerals. -/
def parseNumber (l : List Char) : Option (JVal × List Char) :=
  let intPart : Option (Int × List Char) :=
    match l with
    | [] => none
    | c :: rest =>
      if c = '-' then (parseNatNum rest).map (fun p => (-(p.1 : Int), p.2))
      else (parseNatNum (c :: rest)).map (fun p => ((p.1 : Int), p.2))
  match intPart with
  | none => none
  | some (i, rest) =>
    match rest with
    | c :: _ => if c = '.' ∨ c = 'e' ∨ c = 'E' then none else some (.int i, rest)
    | [] => some (.int i, rest)

/-- JSON whitespace (`[ \t\n\r]`). -/
def isWsChar (c : Char) : Bool := c = ' ' ∨ c = '\t' ∨ c = '\n' ∨ c = '\r'

/-- Skip JSON whitespace. -/
def skipWs : List Char → List Char
  | [] => []
  | c :: rest => if isWsChar c then skipWs rest else c :: rest

/-- Match a list literally at the head of the input. -/
def stripHeader : List Char → List Char → Option (List Char)
  | [], l => some l
  | _ :: _, [] => none
  | p :: ps, c :: cs => if c = p then stripHeader ps cs else none

/-- Wrap a literal-keyword match as a JSON value. -/
def litResult (v : JVal) : Option (List Char) → Option (JVal × List Char)
  | none => none
  | some r => some (v, r)

/-- Wrap a string-body parse as a JSON value. -/
def strResult : Option (List Char × List Char) → Option (JVal × List Char)
  | none => none
  | some (s, r) => some (.str s, r)

/-- Continue an array after `[` and whitespace: `]` closes an empty array,
anything else must be a nonempty element list parsed by `pa`. -/
def arrDispatch (pa : List Char → Option (List JVal × List Char)) :
    List Char → Option (JVal × List Char)
  | [] => none
  | d :: r2 =>
    if d = ']' then some (.arr [], r2)
    else
      match pa (d :: r2) with
      | none => none
      | some (xs, r) => some (.arr xs, r)

/-- Continue an object after the opening brace and whitespace. -/
def objDispatch
    (po : List Char → Option (List (List Char × JVal) × List Char)) :
    List Char → Option (JVal × List Char)
  | [] => none
  | d :: r2 =>
    if d = '\x7d' then some (.obj [], r2)
    else
      match po (d :: r2) with
      | none => none
      | some (kvs, r) => some (.obj kvs, r)

/-- After one array element: `]` closes, `,` continues via `pa`. -/
def arrTail (pa : List Char → Option (List JVal × List Char)) (v : JVal) :
    List Char → Option (List JVal × List Char)
  | [] => none
  | d :: r2 =>
    if d = ']' then some ([v], r2)
    else if d = ',' then
      match pa (skipWs r2) with
      | none => none
      | some (vs, r3) => some (v :: vs, r3)
    else none

/-- After one object entry: the closing brace closes, `,` continues via
`po`. -/
def objTail
    (po : List Char → Option (List (List Char × JVal) × List Char))
    (k : List Char) (v : JVal) :
    List Char → Option (List (List Char × JVal) × List Char)
  | [] => none
  | e :: r4 =>
    if e = '\x7d' then some ([(k, v)], r4)
    else if e = ',' then
      match po (skipWs r4) with
      | none => none
      | some (kvs, r5) => some ((k, v) :: kvs, r5)
    else none

/-- After an object key: expect `:`, then the value via `pv`, then the
entry tail. -/
def objAfterKey (pv : List Char → Option (JVal × List Char))
    (po : List Char → Option (List (List Char × JVal) × List Char))
    (k : List Char) : List Char → Option (List (List Char × JVal) × List Char)
  | [] => none
  | d :: r2 =>
    if d = ':' then
      match pv (skipWs r2) with
      | none => none
      | some (v, r3) => objTail po k v (skipWs r3)
    else none

mutual

/-- One JSON value at the head of the input (CPython's `scan_once`):
dispatch on the first character to a literal, a string, a number, an
array or an object. The fuel bounds the nesting-and-element work; any
fuel at least `jfuel v` parses `dumps v`. -/
def parseValue : Nat → List Char → Option (JVal × List Char)
  | 0, _ => none
  | _ + 1, [] => none
  | fuel + 1, c :: rest =>
    if c = 'n' then litResult .null (stripHeader ['u', 'l', 'l'] rest)
    else if c = 't' then litResult (.bool true) (stripHeader ['r', 'u', 'e'] rest)
    else if c = 'f' then
      litResult (.bool false) (stripHeader ['a', 'l', 's', 'e'] rest)
    else if c = '"' then strResult (parseStringBody (rest.length + 1) rest)
    else if c = '[' then arrDispatch (parseArrItems fuel) (skipWs rest)
    else if c = '\x7b' then objDispatch (parseObjItems fuel) (skipWs rest)
    else parseNumber (c :: rest)

/-- Nonempty comma-separated array tail, up to and including `]`. -/
def parseArrItems : Nat → List Char → Option (List JVal × List Char)
  | 0, _ => none
  | fuel + 1, l =>
    match parseValue fuel l with
    | none => none
    | some (v, r) => arrTail (parseArrItems fuel) v (skipWs r)

/-- Nonempty comma-separated object tail, up to and including the closing
brace. -/
def parseObjItems : Nat → List Char → Option (List (List Char × JVal) × List Char)
  | 0, _ => none
  | fuel + 1, l =>
    match l with
    | [] => none
    | c :: rest =>
      if c = '"' then
        match parseStringBody (rest.length + 1) rest with
        | none => none
        | some (k, r1) =>
          objAfterKey (parseValue fuel) (parseObjItems fuel) k (skipWs r1)
      else none

end

/-- `json.loads`: skip surrounding whitespace, parse one value, require
the input to be exhausted. The internal fuel `length + 1` is always
sufficient (proved below for encoder output). -/
def loads (s : List Char) : Option JVal :=
  match parseValue (s.length + 1) (skipWs s) with
  | none => none
  | some (v, rest) => if skipWs rest = [] then some v else none

/-! ### Frame extraction (the receive path) -/

/-- The regex character class `[^\x1b]`. -/
def notEsc (c : Char) : Bool := !(c == '\x1b')

/-- Try the regex `\x1bP@kitty-cmd([^\x1b]+)\x1b\\` anchored at the head
of the input: the header, a nonempty ESC-free group, then `ESC \`. -/
def tryFrameAt (l : List Char) : Option (List Char) :=
  match stripHeader dcsHeader l with
  | none => none
  | some r =>
    let body := r.takeWhile notEsc
    let rest := r.dropWhile notEsc
    if body.isEmpty then none
    else
      match rest with
      | '\x1b' :: '\\' :: _ => some body
      | _ => none

/-- `re.search` of the frame pattern: try every start position, leftmost
match wins. This is the extraction `SocketIO.simple_recv` performs
(`remote_control.py` lines 119-127); `m.group(1)` is the returned body. -/
def searchFrame : List Char → Option (List Char)
  | [] => none
  | c :: cs =>
    match tryFrameAt (c :: cs) with
    | some b => some b
    | none => searchFrame cs

/-- The receive path of `do_io` (`remote_control.py` lines 155-157):
extract the frame body as `simple_recv` does, decode it as ASCII (failing
on any non-ASCII byte) and `json.loads` it. `none` stands for the raised
`TimeoutError` / `UnicodeDecodeError` / `JSONDecodeError`. -/
def decode_received (data : List Char) : Option JVal :=
  match searchFrame data with
  | none => none
  | some body => if body.all (fun c => c.toNat < 128) then loads body else none

/-- Pairwise distinctness of a key list. -/
def keyNodup : List (List Char) → Bool
  | [] => true
  | k :: ks => !(ks.any (fun k2 => k2 == k)) && keyNodup ks

/-- The `{cmd: "ping", version: [1, 0, 0], no_response: false}` envelope
from the specification's scenario, used as a concrete witness. -/
def pingEnvelope : JVal :=
  .obj [(['c', 'm', 'd'], .str ['p', 'i', 'n', 'g']),
        (['v', 'e', 'r', 's', 'i', 'o', 'n'], .arr [.int 1, .int 0, .int 0]),
        (['n', 'o', '_', 'r', 'e', 's', 'p', 'o', 'n', 's', 'e'], .bool false)]

/-- A registry filled with 32 distinct ids, used as a concrete witness for
the eviction claims. -/
def fullRegistry : Registry :=
  (List.range 32).map (fun i => ("req" ++ toString i, i))

mutual

/-- Well-formedness of a value as a picture of Python data: every object
has pairwise-distinct keys, as a Python `dict` forces. (`json.loads` of
an object with duplicate keys would keep only the last one; a dict can
never serialize to such a document, so the round-trip claim is about
well-formed values.) -/
def jwf : JVal → Bool
  | .null => true
  | .bool _ => true
  | .int _ => true
  | .str _ => true
  | .arr xs => jwfArr xs
  | .obj kvs => keyNodup (kvs.map Prod.fst) && jwfObj kvs

/-- Well-formedness of every array element. -/
def jwfArr : List JVal → Bool
  | [] => true
  | x :: xs => jwf x && jwfArr xs

/-- Well-formedness of every object value. -/
def jwfObj : List (List Char × JVal) → Bool
  | [] => true
  | (_, v) :: kvs => jwf v && jwfObj kvs

end

mutual

/-- A parser fuel bound sufficient to parse `dumps v` (proved below to be
at most `(dumps v).length`). -/
def jfuel : JVal → Nat
  | .null => 1
  | .bool _ => 1
  | .int _ => 1
  | .str _ => 1
  | .arr xs => 1 + jfuelArr xs
  | .obj kvs => 1 + jfuelObj kvs

/-- Fuel bound for a nonempty array tail. -/
def jfuelArr : List JVal → Nat
  | [] => 0
  | x :: xs => 1 + jfuel x + jfuelArr xs

/-- Fuel bound for a nonempty object tail. -/
def jfuelObj : List (List Char × JVal) → Nat
  | [] => 0
  | (_, v) :: kvs => 1 + jfuel v + jfuelObj kvs

end

/-- Whether a JSON number parse may stop at this input: the next character
(if any) is not a digit and not a fraction/exponent marker. -/
def numStop : List Char → Bool
  | [] => true
  | c :: _ => !(isDigit c) && !(c = '.' ∨ c = 'e' ∨ c = 'E')

/-- Every character is printable ASCII (so in particular not `ESC` and
within the `'ascii'` codec). -/
def allPrintable (l : List Char) : Prop :=
  ∀ c ∈ l, 32 ≤ c.toNat ∧ c.toNat ≤ 126

/-! ## Helper lemmas about the registry operations -/

theorem dictLookup_eq_none_iff {α : Type} {k : String}
    {d : List (String × α)} : dictLookup k d = none ↔ k ∉ keysOf d := by
  induction d with
  | nil => simp [dictLookup, keysOf]
  | cons e es ih =>
    cases e with
    | mk a b =>
      by_cases hk : a = k
      · subst hk
        simp [dictLookup, keysOf]
      · have hb : (a == k) = false := by simpa [beq_eq_false_iff_ne] using hk
        simp [dictLookup, hb, keysOf, Ne.symm hk] at ih ⊢
        exact ih

theorem pyDictSet_of_not_mem {α : Type} {k : String} {v : α}
    {d : List (String × α)} (h : k ∉ keysOf d) :
    pyDictSet k v d = d ++ [(k, v)] := by
  have hany : d.any (fun e => e.1 == k) = false := by
    rw [List.any_eq_false]
    intro e he
    simp only [beq_iff_eq]
    intro heq
    exact h (by simpa [keysOf, heq] using List.mem_map_of_mem Prod.fst he)
  simp [pyDictSet, hany]

theorem pyDictSet_of_mem {α : Type} {k : String} {v : α}
    {d : List (String × α)} (h : k ∈ keysOf d) :
    pyDictSet k v d = d.map (fun e => if e.1 == k then (k, v) else e) := by
  have hany : d.any (fun e => e.1 == k) = true := by
    rw [List.any_eq_true]
    rw [keysOf, List.mem_map] at h
    obtain ⟨e, he, heq⟩ := h
    exact ⟨e, he, by simp [heq]⟩
  simp [pyDictSet, hany]

theorem pyDictSet_length_le {α : Type} (k : String) (v : α)
    (d : List (String × α)) : (pyDictSet k v d).length ≤ d.length + 1 := by
  unfold pyDictSet
  split
  · simp
  · simp

theorem pyDictPop_snd_length_le {α : Type} (k : String)
    (d : List (String × α)) : (pyDictPop k d).2.length ≤ d.length := by
  unfold pyDictPop
  split
  · exact Nat.le_refl _
  · simpa using List.length_filter_le _ _

theorem not_mem_keys_pyDictPop {α : Type} (k : String)
    (d : List (String × α)) : k ∉ keysOf (pyDictPop k d).2 := by
  unfold pyDictPop
  split
  next hl => exact dictLookup_eq_none_iff.mp hl
  next v hl =>
    simp only [keysOf, List.mem_map, not_exists]
    intro e
    rintro ⟨he, rfl⟩
    have := (List.mem_filter.mp he).2
    simp at this

theorem finishCmd_registry (c : CmdDesc) (nr : Bool) (exec : ExecResult)
    (reg : Registry) : (finishCmd c nr exec reg).registry = reg := by
  cases exec <;> simp only [finishCmd] <;> split <;> rfl

theorem finishCmd_executed (c : CmdDesc) (nr : Bool) (exec : ExecResult)
    (reg : Registry) : (finishCmd c nr exec reg).executed = true := by
  cases exec <;> simp only [finishCmd] <;> split <;> rfl

theorem finishCmd_not_wire (c : CmdDesc) (exec : ExecResult) (reg : Registry) :
    (finishCmd c true exec reg).result.isWire = false := by
  cases exec <;> simp [finishCmd, RCResult.isWire]

theorem finishCmd_raises_result (c : CmdDesc) (reg : Registry) :
    (finishCmd c true .raises reg).result = .retNone := rfl

theorem finishCmd_value_result (c : CmdDesc) (v : Option JVal) (reg : Registry) :
    (finishCmd c true (.value v) reg).result = .retNone := by
  simp [finishCmd]

theorem handle_cmd_registry_le (sv : List Int)
    (resolve : String → Option CmdDesc) (exec : ExecResult) (now : Nat)
    (peer : Int) (env : CmdEnvelope) (reg : Registry)
    (h : reg.length ≤ 32) :
    (handle_cmd sv resolve exec now peer env reg).registry.length ≤ 32 := by
  cases hg : tupGT (env.version.take 2) (sv.take 2) with
  | true => cases hnr : env.no_response <;> simpa [handle_cmd, hg, hnr] using h
  | false =>
    cases hres : resolve env.cmd with
    | none => simpa [handle_cmd, hg, hres] using h
    | some c =>
      by_cases ha : env.asyncId = ""
      · simpa [handle_cmd, hg, hres, ha, finishCmd_registry] using h
      · cases hca : env.cancel_async with
        | some cv =>
          have hp := pyDictPop_snd_length_le env.asyncId reg
          simp [handle_cmd, hg, hres, ha, hca]
          omega
        | none =>
          have hins := pyDictSet_length_le env.asyncId now reg
          simp [handle_cmd, hg, hres, ha, hca, finishCmd_registry]
          split
          next hgt => rw [List.length_tail]; omega
          next hle => omega

theorem send_response_registry_eq (wmap : Int → Option (Option Unit))
    (data : JVal) (error : String) (p w : Int) (aid : String)
    (reg : Registry) :
    (send_response_to_client wmap data error p w aid reg).registry =
      (pyDictPop aid reg).2 := by
  unfold send_response_to_client
  cases hl : dictLookup aid reg with
  | none => simp [pyDictPop, hl]
  | some v =>
    simp only [pyDictPop, hl]
    split
    · rfl
    · split
      · split <;> rfl
      · rfl

theorem send_response_registry_le (wmap : Int → Option (Option Unit))
    (data : JVal) (error : String) (p w : Int) (aid : String)
    (reg : Registry) (h : reg.length ≤ 32) :
    (send_response_to_client wmap data error p w aid reg).registry.length ≤ 32 := by
  rw [send_response_registry_eq]
  exact le_trans (pyDictPop_snd_length_le aid reg) h

theorem handle_cmd_register_registry (sv : List Int)
    (resolve : String → Option CmdDesc) (exec : ExecResult) (now : Nat)
    (peer : Int) (env : CmdEnvelope) (reg : Registry) (c : CmdDesc)
    (hg : tupGT (env.version.take 2) (sv.take 2) = false)
    (hres : resolve env.cmd = some c)
    (ha : env.asyncId ≠ "") (hca : env.cancel_async = none) :
    (handle_cmd sv resolve exec now peer env reg).registry =
      (if (pyDictSet env.asyncId now reg).length > 32
       then (pyDictSet env.asyncId now reg).tail
       else pyDictSet env.asyncId now reg) := by
  simp [handle_cmd, hg, hres, ha, hca, finishCmd_registry]

theorem runOps_length_le (ops : List RegOp) :
    ∀ reg : Registry, reg.length ≤ 32 → (runOps ops reg).length ≤ 32 := by
  induction ops with
  | nil => intro reg h; exact h
  | cons op ops ih =>
    intro reg h
    refine ih _ ?_
    cases op with
    | handle sv res exec now peer env => exact handle_cmd_registry_le _ _ _ _ _ _ _ h
    | deliver wmap d e p w aid => exact send_response_registry_le _ _ _ _ _ _ _ h

/-! ## Claim theorems -/

/-- C1: across any sequence of dispatcher and completion-delivery calls
starting from the initial empty registry, `active_async_requests` never
holds more than 32 entries; and when a dispatch registers an async id that
is not yet tracked while the registry is full, the new registry is exactly
the old one with its single earliest-inserted entry removed and the new id
appended — pure FIFO by insertion order, independent of the stored
timestamps, and no other entry is touched. -/
theorem C1_registry_bounded_fifo (ops : List RegOp) (sv : List Int)
    (resolve : String → Option CmdDesc) (exec : ExecResult) (now : Nat)
    (peer : Int) (env : CmdEnvelope) (reg : Registry) (c : CmdDesc)
    (hg : tupGT (env.version.take 2) (sv.take 2) = false)
    (hres : resolve env.cmd = some c)
    (ha : env.asyncId ≠ "") (hca : env.cancel_async = none)
    (hnew : env.asyncId ∉ keysOf reg) (hfull : 32 ≤ reg.length) :
    (runOps ops []).length ≤ 32 ∧
    (handle_cmd sv resolve exec now peer env reg).registry =
      reg.tail ++ [(env.asyncId, now)] := by
  refine ⟨runOps_length_le ops [] (by simp), ?_⟩
  cases reg with
  | nil => simp at hfull
  | cons a t =>
    have hins : pyDictSet env.asyncId now (a :: t) =
        a :: t ++ [(env.asyncId, now)] := by
      simpa using pyDictSet_of_not_mem hnew
    have hgt : (a :: t ++ [(env.asyncId, now)]).length > 32 := by
      simp at hfull ⊢; omega
    simp [handle_cmd, hg, hres, ha, hca, finishCmd_registry, hins, hgt]
    simp at hfull
    omega

/-- Witness for C1 at a concrete full registry: registering the fresh id
`"newid"` evicts exactly the earliest-inserted entry `("req0", 0)`. -/
theorem C1_registry_bounded_fifo_witness :
    (runOps [] []).length ≤ 32 ∧
    (handle_cmd [0, 23, 1] (fun _ => some ⟨false⟩) (.value (some .null)) 99 7
        ⟨"ls", [0, 23, 1], none, false, "newid", none⟩ fullRegistry).registry =
      fullRegistry.tail ++ [("newid", 99)] :=
  C1_registry_bounded_fifo [] [0, 23, 1] (fun _ => some ⟨false⟩)
    (.value (some .null)) 99 7 ⟨"ls", [0, 23, 1], none, false, "newid", none⟩
    fullRegistry ⟨false⟩ (by decide) rfl (by decide) rfl (by decide) (by decide)

/-- C2: `handle_cmd` compares only the first two components of the
envelope's version against the first two of the server version. A strictly
greater client pair yields the compatibility-error dict (`None` under
`no_response`) with no execution and an outcome independent of the command
catalog and of the command's behaviour (no lookup, no execution); an
accepted pair proceeds to dispatch and executes the resolved command.
Client `(1,5,0)` against server `(1,4,9)` is rejected, client `(1,4,0)`
against server `(1,5,0)` is accepted. -/
theorem C2_version_gate (sv : List Int) (resolve : String → Option CmdDesc)
    (exec : ExecResult) (now : Nat) (peer : Int) (env : CmdEnvelope)
    (reg : Registry) :
    (tupGT (env.version.take 2) (sv.take 2) = true →
      handle_cmd sv resolve exec now peer env reg =
        ⟨reg, if env.no_response then .retNone
              else .retDict ⟨false, some versionMismatchMsg, none⟩,
         false, none⟩) ∧
    (tupGT (env.version.take 2) (sv.take 2) = true →
      ∀ resolveB execB, handle_cmd sv resolve exec now peer env reg =
        handle_cmd sv resolveB execB now peer env reg) ∧
    (tupGT (env.version.take 2) (sv.take 2) = false →
      ∀ c, resolve env.cmd = some c → env.asyncId = "" →
        (handle_cmd sv resolve exec now peer env reg).executed = true) ∧
    tupGT ([1, 5, 0].take 2) ([1, 4, 9].take 2) = true ∧
    tupGT ([1, 4, 0].take 2) ([1, 5, 0].take 2) = false := by
  refine ⟨?_, ?_, ?_, by decide, by decide⟩
  · intro h
    cases hnr : env.no_response <;> simp [handle_cmd, h, hnr]
  · intro h resolveB execB
    cases hnr : env.no_response <;> simp [handle_cmd, h, hnr]
  · intro h c hres ha
    simp [handle_cmd, h, hres, ha, finishCmd_executed]

/-- Witness for C2 at concrete inputs: a client envelope at version
`(1,5,0)` is rejected by a `(1,4,9)` server, and one at `(1,4,0)` is
dispatched and executed by a `(1,5,0)` server. -/
theorem C2_version_gate_witness :
    handle_cmd [1, 4, 9] (fun _ => some ⟨false⟩) (.value (some .null)) 0 7
        ⟨"ls", [1, 5, 0], none, false, "", none⟩ [] =
      ⟨[], .retDict ⟨false, some versionMismatchMsg, none⟩, false, none⟩ ∧
    (handle_cmd [1, 5, 0] (fun _ => some ⟨false⟩) (.value (some .null)) 0 7
        ⟨"ls", [1, 4, 0], none, false, "", none⟩ []).executed = true := by
  refine ⟨?_, ?_⟩
  · have h := (C2_version_gate [1, 4, 9] (fun _ => some ⟨false⟩)
      (.value (some .null)) 0 7 ⟨"ls", [1, 5, 0], none, false, "", none⟩ []).1
    simpa using h (by decide)
  · exact (C2_version_gate [1, 5, 0] (fun _ => some ⟨false⟩)
      (.value (some .null)) 0 7 ⟨"ls", [1, 4, 0], none, false, "", none⟩ []).2.2.1
      (by decide) ⟨false⟩ rfl rfl

/-- C4: an envelope with `no_response = true` never yields a wire response
dict from `handle_cmd`: whatever the execution does, the result is never a
response dict; when execution raises the exception is swallowed and `None`
is returned, and when execution returns a plain value the `ok` response is
suppressed and `None` is returned. -/
theorem C4_no_response_no_wire (sv : List Int)
    (resolve : String → Option CmdDesc) (now : Nat) (peer : Int)
    (env : CmdEnvelope) (reg : Registry) (h : env.no_response = true) :
    (∀ exec, (handle_cmd sv resolve exec now peer env reg).result.isWire = false) ∧
    ((handle_cmd sv resolve .raises now peer env reg).executed = true →
      (handle_cmd sv resolve .raises now peer env reg).result = .retNone) ∧
    (∀ v, (handle_cmd sv resolve (.value v) now peer env reg).executed = true →
      (handle_cmd sv resolve (.value v) now peer env reg).result = .retNone) := by
  refine ⟨?_, ?_, ?_⟩
  · intro exec
    cases hg : tupGT (env.version.take 2) (sv.take 2) with
    | false =>
      cases hres : resolve env.cmd with
      | none => simp [handle_cmd, hg, hres, RCResult.isWire]
      | some c =>
        by_cases ha : env.asyncId = ""
        · simp [handle_cmd, hg, hres, ha, h, finishCmd_not_wire]
        · cases hca : env.cancel_async with
          | none => simp [handle_cmd, hg, hres, ha, hca, h, finishCmd_not_wire]
          | some cv => simp [handle_cmd, hg, hres, ha, hca, RCResult.isWire]
    | true => simp [handle_cmd, hg, h, RCResult.isWire]
  · cases hg : tupGT (env.version.take 2) (sv.take 2) with
    | false =>
      cases hres : resolve env.cmd with
      | none => simp [handle_cmd, hg, hres]
      | some c =>
        by_cases ha : env.asyncId = ""
        · simp [handle_cmd, hg, hres, ha, h, finishCmd_raises_result]
        · cases hca : env.cancel_async with
          | none => simp [handle_cmd, hg, hres, ha, hca, h, finishCmd_raises_result]
          | some cv => simp [handle_cmd, hg, hres, ha, hca]
    | true => simp [handle_cmd, hg, h]
  · intro v
    cases hg : tupGT (env.version.take 2) (sv.take 2) with
    | false =>
      cases hres : resolve env.cmd with
      | none => simp [handle_cmd, hg, hres]
      | some c =>
        by_cases ha : env.asyncId = ""
        · simp [handle_cmd, hg, hres, ha, h, finishCmd_value_result]
        · cases hca : env.cancel_async with
          | none => simp [handle_cmd, hg, hres, ha, hca, h, finishCmd_value_result]
          | some cv => simp [handle_cmd, hg, hres, ha, hca]
    | true => simp [handle_cmd, hg, h]

/-- Witness for C4: a `no_response` envelope whose execution raises is
dispatched (executed) and still returns `None`, with no wire response. -/
theorem C4_no_response_no_wire_witness :
    (handle_cmd [0, 23, 1] (fun _ => some ⟨false⟩) .raises 0 7
        ⟨"ls", [0, 23, 1], none, true, "", none⟩ []).result.isWire = false ∧
    (handle_cmd [0, 23, 1] (fun _ => some ⟨false⟩) .raises 0 7
        ⟨"ls", [0, 23, 1], none, true, "", none⟩ []).result = .retNone := by
  have h := C4_no_response_no_wire [0, 23, 1] (fun _ => some ⟨false⟩) 0 7
    ⟨"ls", [0, 23, 1], none, true, "", none⟩ [] rfl
  exact ⟨h.1 .raises, h.2.1 (by rfl)⟩

/-- C5: a completion delivery for an async id that is not in the registry
performs no transport write, no window delivery, raises nothing and leaves
the registry unchanged (stale completions are silently dropped). -/
theorem C5_stale_completion_dropped (wmap : Int → Option (Option Unit))
    (data : JVal) (error : String) (peer window : Int) (aid : String)
    (reg : Registry) (h : aid ∉ keysOf reg) :
    send_response_to_client wmap data error peer window aid reg =
      ⟨reg, none, none, false⟩ := by
  have hl : dictLookup aid reg = none := dictLookup_eq_none_iff.mpr h
  simp [send_response_to_client, pyDictPop, hl]

/-- Witness for C5: a spurious completion for `"abc123"` against a registry
that does not hold it is dropped with no write. -/
theorem C5_stale_completion_dropped_witness :
    "abc123" ∉ keysOf ([("zzz", 5)] : Registry) ∧
    send_response_to_client (fun _ => none) .null "" 3 0 "abc123" [("zzz", 5)] =
      ⟨[("zzz", 5)], none, none, false⟩ :=
  ⟨by decide, C5_stale_completion_dropped (fun _ => none) .null "" 3 0 "abc123"
    [("zzz", 5)] (by decide)⟩

theorem deliver_absent (wmap : Int → Option (Option Unit)) (data : JVal)
    (error : String) (p w : Int) (aid : String) (reg : Registry)
    (h : aid ∉ keysOf reg) :
    send_response_to_client wmap data error p w aid reg =
      ⟨reg, none, none, false⟩ := by
  have hl : dictLookup aid reg = none := dictLookup_eq_none_iff.mpr h
  simp [send_response_to_client, pyDictPop, hl]

theorem not_mem_keys_send_response (wmap : Int → Option (Option Unit))
    (data : JVal) (error : String) (p w : Int) (aid : String)
    (reg : Registry) :
    aid ∉ keysOf (send_response_to_client wmap data error p w aid reg).registry := by
  rw [send_response_registry_eq]
  exact not_mem_keys_pyDictPop aid reg

/-- C6: for an envelope with a non-empty async id and the `cancel_async`
key present, `handle_cmd` removes the id from the registry, invokes the
descriptor's cancellation hook with the merged payload, does not execute
the command and returns `None`; a subsequent completion delivery for that
id then finds it absent and is dropped, and a second completion delivery
for any already-drained id is likewise dropped (idempotent drain). -/
theorem C6_cancellation_path (sv : List Int)
    (resolve : String → Option CmdDesc) (exec : ExecResult) (now : Nat)
    (peer : Int) (env : CmdEnvelope) (reg : Registry) (c : CmdDesc)
    (wmap : Int → Option (Option Unit)) (data : JVal) (error : String)
    (p w : Int)
    (hg : tupGT (env.version.take 2) (sv.take 2) = false)
    (hres : resolve env.cmd = some c)
    (ha : env.asyncId ≠ "")
    (hca : env.cancel_async.isSome = true) :
    handle_cmd sv resolve exec now peer env reg =
      ⟨(pyDictPop env.asyncId reg).2, .retNone, false,
       some (pyDictSet "async_id" (.str env.asyncId.data)
         (pyDictSet "peer_id" (.int peer) (env.payload.getD [])))⟩ ∧
    send_response_to_client wmap data error p w env.asyncId
        (handle_cmd sv resolve exec now peer env reg).registry =
      ⟨(handle_cmd sv resolve exec now peer env reg).registry,
       none, none, false⟩ ∧
    (∀ reg2 : Registry,
      send_response_to_client wmap data error p w env.asyncId
          ((send_response_to_client wmap data error p w env.asyncId reg2).registry) =
        ⟨(send_response_to_client wmap data error p w env.asyncId reg2).registry,
         none, none, false⟩) := by
  have h1 : handle_cmd sv resolve exec now peer env reg =
      ⟨(pyDictPop env.asyncId reg).2, .retNone, false,
       some (pyDictSet "async_id" (.str env.asyncId.data)
         (pyDictSet "peer_id" (.int peer) (env.payload.getD [])))⟩ := by
    simp [handle_cmd, hg, hres, ha, hca]
  refine ⟨h1, ?_, ?_⟩
  · refine deliver_absent wmap data error p w env.asyncId _ ?_
    rw [h1]
    exact not_mem_keys_pyDictPop env.asyncId reg
  · intro reg2
    exact deliver_absent wmap data error p w env.asyncId _
      (not_mem_keys_send_response wmap data error p w env.asyncId reg2)

/-- Witness for C6: cancelling tracked id `"abc123"` removes it, skips
execution, returns `None`, and later completion deliveries for it drop. -/
theorem C6_cancellation_path_witness :
    handle_cmd [0, 23, 1] (fun _ => some ⟨false⟩) (.value (some .null)) 9 7
        ⟨"ls", [0, 23, 1], none, false, "abc123", some (.bool true)⟩
        [("abc123", 4)] =
      ⟨(pyDictPop "abc123" [("abc123", 4)]).2, .retNone, false,
       some (pyDictSet "async_id" (.str "abc123".data)
         (pyDictSet "peer_id" (.int 7) []))⟩ ∧
    send_response_to_client (fun _ => none) .null "" 0 0 "abc123"
        (handle_cmd [0, 23, 1] (fun _ => some ⟨false⟩) (.value (some .null)) 9 7
          ⟨"ls", [0, 23, 1], none, false, "abc123", some (.bool true)⟩
          [("abc123", 4)]).registry =
      ⟨(handle_cmd [0, 23, 1] (fun _ => some ⟨false⟩) (.value (some .null)) 9 7
          ⟨"ls", [0, 23, 1], none, false, "abc123", some (.bool true)⟩
          [("abc123", 4)]).registry, none, none, false⟩ :=
  have h := C6_cancellation_path [0, 23, 1] (fun _ => some ⟨false⟩)
    (.value (some .null)) 9 7
    ⟨"ls", [0, 23, 1], none, false, "abc123", some (.bool true)⟩
    [("abc123", 4)] ⟨false⟩ (fun _ => none) .null "" 0 0
    (by decide) rfl (by decide) rfl
  ⟨h.1, h.2.1⟩

/-- C10: registering an async id that is already tracked (with the
registry within capacity) updates its stored timestamp in place: the key
sequence, and in particular the head (the FIFO eviction candidate), is
unchanged, the entry's timestamp becomes the new registration time, and
every other entry is untouched. -/
theorem C10_reregister_keeps_position (sv : List Int)
    (resolve : String → Option CmdDesc) (exec : ExecResult) (now : Nat)
    (peer : Int) (env : CmdEnvelope) (reg : Registry) (c : CmdDesc)
    (hg : tupGT (env.version.take 2) (sv.take 2) = false)
    (hres : resolve env.cmd = some c)
    (ha : env.asyncId ≠ "") (hca : env.cancel_async = none)
    (hmem : env.asyncId ∈ keysOf reg) (hlen : reg.length ≤ 32) :
    (handle_cmd sv resolve exec now peer env reg).registry =
      reg.map (fun e => if e.1 == env.asyncId then (env.asyncId, now) else e) ∧
    keysOf (handle_cmd sv resolve exec now peer env reg).registry = keysOf reg ∧
    (∀ e ∈ (handle_cmd sv resolve exec now peer env reg).registry,
      e.1 = env.asyncId → e.2 = now) ∧
    (∀ e ∈ reg, e.1 ≠ env.asyncId →
      e ∈ (handle_cmd sv resolve exec now peer env reg).registry) ∧
    (handle_cmd sv resolve exec now peer env reg).registry.head?.map Prod.fst =
      reg.head?.map Prod.fst := by
  have hins : pyDictSet env.asyncId now reg =
      reg.map (fun e => if e.1 == env.asyncId then (env.asyncId, now) else e) :=
    pyDictSet_of_mem hmem
  have hlen1 : (pyDictSet env.asyncId now reg).length = reg.length := by
    rw [hins]; simp
  have hreg : (handle_cmd sv resolve exec now peer env reg).registry =
      reg.map (fun e => if e.1 == env.asyncId then (env.asyncId, now) else e) := by
    rw [handle_cmd_register_registry sv resolve exec now peer env reg c hg hres ha hca,
      if_neg (by omega), hins]
  have hpt : ∀ e : String × Nat,
      ((if e.1 == env.asyncId then (env.asyncId, now) else e) : String × Nat).1 = e.1 := by
    intro e
    by_cases hk : (e.1 == env.asyncId) = true
    · rw [if_pos hk]
      exact (beq_iff_eq.mp hk).symm
    · rw [if_neg hk]
  refine ⟨hreg, ?_, ?_, ?_, ?_⟩
  · rw [hreg]
    simp only [keysOf, List.map_map]
    refine List.map_congr_left ?_
    intro e _
    exact hpt e
  · rw [hreg]
    intro e he hk
    obtain ⟨a, _, rfl⟩ := List.mem_map.mp he
    by_cases hb : (a.1 == env.asyncId) = true
    · rw [if_pos hb]
    · rw [if_neg hb] at hk
      exact absurd hk (fun h => hb (beq_iff_eq.mpr h))
  · rw [hreg]
    intro e he hk
    have hfe : (if e.1 == env.asyncId then (env.asyncId, now) else e) = e := by
      rw [if_neg (fun h => hk (beq_iff_eq.mp h))]
    rw [← hfe]
    exact List.mem_map_of_mem _ he
  · rw [hreg]
    cases reg with
    | nil => rfl
    | cons a t =>
      simp only [List.map_cons, List.head?_cons, Option.map_some']
      rw [hpt a]

/-- Witness for C10: re-registering `"req0"`, the earliest entry of a full
registry, updates its timestamp but leaves it at the head, still first in
line for eviction. -/
theorem C10_reregister_keeps_position_witness :
    (handle_cmd [0, 23, 1] (fun _ => some ⟨false⟩) (.value (some .null)) 99 7
        ⟨"ls", [0, 23, 1], none, false, "req0", none⟩ fullRegistry).registry.head?.map
        Prod.fst = fullRegistry.head?.map Prod.fst :=
  (C10_reregister_keeps_position [0, 23, 1] (fun _ => some ⟨false⟩)
    (.value (some .null)) 99 7 ⟨"ls", [0, 23, 1], none, false, "req0", none⟩
    fullRegistry ⟨false⟩ (by decide) rfl (by decide) rfl (by decide)
    (by decide)).2.2.2.2

/-- C9: for an envelope with a non-empty async id, the cancellation path is
taken whenever the `cancel_async` key is present, regardless of its value:
even `cancel_async = false` removes the id, invokes the cancellation hook,
skips execution and returns `None`. -/
theorem C9_cancel_async_presence_only (sv : List Int)
    (resolve : String → Option CmdDesc) (exec : ExecResult) (now : Nat)
    (peer : Int) (env : CmdEnvelope) (reg : Registry) (c : CmdDesc)
    (hg : tupGT (env.version.take 2) (sv.take 2) = false)
    (hres : resolve env.cmd = some c)
    (ha : env.asyncId ≠ "")
    (hca : env.cancel_async = some (.bool false)) :
    handle_cmd sv resolve exec now peer env reg =
      ⟨(pyDictPop env.asyncId reg).2, .retNone, false,
       some (pyDictSet "async_id" (.str env.asyncId.data)
         (pyDictSet "peer_id" (.int peer) (env.payload.getD [])))⟩ := by
  simp [handle_cmd, hg, hres, ha, hca]

/-- Witness for C9: an envelope with `cancel_async: false` and async id
`"abc123"` still takes the cancellation path: the id is removed, the
command is not executed and `None` is returned. -/
theorem C9_cancel_async_presence_only_witness :
    handle_cmd [0, 23, 1] (fun _ => some ⟨false⟩) (.value (some .null)) 9 7
        ⟨"ls", [0, 23, 1], none, false, "abc123", some (.bool false)⟩
        [("abc123", 4)] =
      ⟨(pyDictPop "abc123" [("abc123", 4)]).2, .retNone, false,
       some (pyDictSet "async_id" (.str "abc123".data)
         (pyDictSet "peer_id" (.int 7) []))⟩ :=
  C9_cancel_async_presence_only [0, 23, 1] (fun _ => some ⟨false⟩)
    (.value (some .null)) 9 7
    ⟨"ls", [0, 23, 1], none, false, "abc123", some (.bool false)⟩
    [("abc123", 4)] ⟨false⟩ (by decide) rfl (by decide) rfl

/-- C3 counterexample: when the cancellation send itself raises, `main`
does not raise the timeout failure — the exception from the cancellation
`do_io` propagates instead, because that call is not wrapped in any
try/except. The claim's "regardless of whether the cancellation send
itself succeeded or raised" is therefore false on the code. -/
theorem C3_counterexample :
    (main_on_timeout ⟨"ls", [0, 23, 1], false, some .null, some "abc123", false⟩
        5 true).outcome = .raisedException ∧
    (main_on_timeout ⟨"ls", [0, 23, 1], false, some .null, some "abc123", false⟩
        5 true).outcome ≠ .exitTimeout (timeoutMsg 5) := by
  refine ⟨rfl, ?_⟩
  intro h
  exact ClientOutcome.noConfusion h

/-- C3 amended: when the client's blocking read times out, `main` sends
exactly one cancellation envelope derived from the original (same `cmd`
and async id, `payload` key removed, `cancel_async = true`), fire and
forget (`do_io` is called with `no_response = True` and a fixed timeout of
10), and — provided that cancellation send returns — raises a user-facing
timeout failure naming the configured `response_timeout`; if the
cancellation send itself raises, that exception propagates instead and the
timeout failure is not raised. -/
theorem C3_amended_timeout_cancellation (send : SendEnvelope)
    (response_timeout : Nat) :
    main_on_timeout send response_timeout false =
      ⟨[⟨{ send with payload := none, cancel_async := true }, true, 10⟩],
       .exitTimeout (timeoutMsg response_timeout)⟩ ∧
    main_on_timeout send response_timeout true =
      ⟨[⟨{ send with payload := none, cancel_async := true }, true, 10⟩],
       .raisedException⟩ ∧
    (main_on_timeout send response_timeout false).sent.length = 1 ∧
    ({ send with payload := none, cancel_async := true } : SendEnvelope).cmd =
      send.cmd ∧
    ({ send with payload := none, cancel_async := true } : SendEnvelope).async =
      send.async ∧
    timeoutMsg response_timeout =
      "Timed out after " ++ toString response_timeout ++
        " seconds waiting for response from kitty" :=
  ⟨rfl, rfl, rfl, rfl, rfl, rfl⟩

/-- C8: a response with `ok = true` whose `data` is a string makes a
client whose descriptor sets `string_return_is_error` exit with that
string as a failure message (`SystemExit(data)`), while for a descriptor
without the flag the same response prints the data and exits
successfully. -/
theorem C8_string_return_is_error (tb err : Option JVal) (s : List Char) :
    main_interpret true false ⟨true, tb, err, some (.str s)⟩ = .exitData s ∧
    main_interpret false false ⟨true, tb, err, some (.str s)⟩ =
      .printedData (.str s) :=
  ⟨rfl, rfl⟩

/-! ## Character and hex-digit lemmas -/

theorem char_toNat_lt (c : Char) : c.toNat < 1114112 := by
  have h := c.valid
  have he : c.toNat = c.val.toNat := rfl
  rcases h with h | ⟨h1, h2⟩ <;> omega

theorem char_not_surrogate (c : Char) :
    ¬(55296 ≤ c.toNat ∧ c.toNat ≤ 57343) := by
  have h := c.valid
  have he : c.toNat = c.val.toNat := rfl
  rcases h with h | ⟨h1, h2⟩ <;> omega

theorem mkChar_toNat (c : Char) : mkChar c.toNat = some c := by
  unfold mkChar
  rw [if_pos (show c.toNat.isValidChar from c.valid), Char.ofNat_toNat]

theorem char_eq_of_toNat_eq {c d : Char} (h : c.toNat = d.toNat) : c = d := by
  rw [← Char.ofNat_toNat c, ← Char.ofNat_toNat d, h]

theorem char_ne_of_toNat_ne {c d : Char} (h : c.toNat ≠ d.toNat) : c ≠ d :=
  fun he => h (he ▸ rfl)

theorem hexVal_hexDigitChar {d : Nat} (h : d < 16) :
    hexVal (hexDigitChar d) = some d := by
  interval_cases d <;> decide

theorem hexDigitChar_printable {d : Nat} (h : d < 16) :
    32 ≤ (hexDigitChar d).toNat ∧ (hexDigitChar d).toNat ≤ 126 := by
  interval_cases d <;> decide

theorem parseHex4_toHex4 {n : Nat} (h : n < 65536) (r : List Char) :
    parseHex4 (toHex4 n ++ r) = some (n, r) := by
  have h1 : n / 4096 % 16 < 16 := Nat.mod_lt _ (by omega)
  have h2 : n / 256 % 16 < 16 := Nat.mod_lt _ (by omega)
  have h3 : n / 16 % 16 < 16 := Nat.mod_lt _ (by omega)
  have h4 : n % 16 < 16 := Nat.mod_lt _ (by omega)
  simp only [toHex4, List.cons_append, List.nil_append, parseHex4,
    hexVal_hexDigitChar h1, hexVal_hexDigitChar h2, hexVal_hexDigitChar h3,
    hexVal_hexDigitChar h4]
  congr 1
  congr 1
  omega

/-! ## String codec lemmas -/

theorem parseStringBody_quote (fuel : Nat) (rest : List Char) :
    parseStringBody (fuel + 1) ('"' :: rest) = some ([], rest) := by
  simp [parseStringBody]

theorem parseStringBody_shortEsc {x c : Char} (hx : escLookup x = some c)
    (hxu : x ≠ 'u') (fuel : Nat) (tail s r : List Char)
    (h : parseStringBody fuel tail = some (s, r)) :
    parseStringBody (fuel + 1) ('\\' :: x :: tail) = some (c :: s, r) := by
  simp [parseStringBody, parseEsc, hxu, hx, h, consStr]

theorem parseStringBody_uEsc {n : Nat} (hn : n < 65536)
    (hns : ¬(55296 ≤ n ∧ n ≤ 57343)) {c : Char} (hc : mkChar n = some c)
    (fuel : Nat) (tail s r : List Char)
    (h : parseStringBody fuel tail = some (s, r)) :
    parseStringBody (fuel + 1) ('\\' :: 'u' :: (toHex4 n ++ tail)) =
      some (c :: s, r) := by
  have h1 : ¬(55296 ≤ n ∧ n ≤ 56319) := by omega
  have h2 : ¬(56320 ≤ n ∧ n ≤ 57343) := by omega
  simp [parseStringBody, parseEsc, parseUEsc, consStr, parseHex4_toHex4 hn, h1, h2, hc, h]

theorem parseStringBody_pairEsc {n : Nat} (hn1 : 65536 ≤ n) (hn2 : n < 1114112)
    {c : Char} (hc : mkChar n = some c) (fuel : Nat) (tail s r : List Char)
    (h : parseStringBody fuel tail = some (s, r)) :
    parseStringBody (fuel + 1)
      ('\\' :: 'u' :: (toHex4 (55296 + (n - 65536) / 1024) ++
        ('\\' :: 'u' :: (toHex4 (56320 + (n - 65536) % 1024) ++ tail)))) =
      some (c :: s, r) := by
  have hhi : 55296 + (n - 65536) / 1024 < 65536 := by omega
  have hhir : 55296 ≤ 55296 + (n - 65536) / 1024 ∧
      55296 + (n - 65536) / 1024 ≤ 56319 := by omega
  have hlo : 56320 + (n - 65536) % 1024 < 65536 := by omega
  have hlor : 56320 ≤ 56320 + (n - 65536) % 1024 ∧
      56320 + (n - 65536) % 1024 ≤ 57343 := by omega
  rw [parseStringBody, if_neg (by decide), if_pos rfl, parseEsc, if_pos rfl,
    parseUEsc, parseHex4_toHex4 hhi]
  simp only []
  rw [if_pos hhir]
  rw [parseHex4_toHex4 hlo]
  simp only []
  rw [if_pos hlor]
  rw [show 65536 + (55296 + (n - 65536) / 1024 - 55296) * 1024 +
      (56320 + (n - 65536) % 1024 - 56320) = n from by omega]
  rw [hc]
  simp only []
  rw [h]
  rfl

theorem parseStringBody_plain {c : Char} (h1 : c ≠ '"') (h2 : c ≠ '\\')
    (h3 : 32 ≤ c.toNat) (fuel : Nat) (tail s r : List Char)
    (h : parseStringBody fuel tail = some (s, r)) :
    parseStringBody (fuel + 1) (c :: tail) = some (c :: s, r) := by
  simp [parseStringBody, consStr, h1, h2, h, Nat.not_lt.mpr h3]

theorem escapeChar_length_pos (c : Char) : 1 ≤ (escapeChar c).length := by
  unfold escapeChar
  split_ifs <;> simp [toHex4]

theorem escList_length (s : List Char) : s.length ≤ (escList s).length := by
  induction s with
  | nil => simp [escList]
  | cons c cs ih =>
    have h1 := escapeChar_length_pos c
    simp only [escList, List.length_append, List.length_cons]
    omega

theorem parseStringBody_escList (s : List Char) :
    ∀ (fuel : Nat) (rest : List Char), s.length + 1 ≤ fuel →
      parseStringBody fuel (escList s ++ '"' :: rest) = some (s, rest) := by
  induction s with
  | nil =>
    intro fuel rest hf
    cases fuel with
    | zero => omega
    | succ f => simpa [escList] using parseStringBody_quote f rest
  | cons c cs ih =>
    intro fuel rest hf
    cases fuel with
    | zero => omega
    | succ f =>
      have hr : parseStringBody f (escList cs ++ '"' :: rest) = some (cs, rest) :=
        ih f rest (by simp only [List.length_cons] at hf; omega)
      have hassoc : escList (c :: cs) ++ '"' :: rest =
          escapeChar c ++ (escList cs ++ '"' :: rest) := by
        simp [escList, List.append_assoc]
      rw [hassoc]
      by_cases e1 : c = '"'
      · subst e1
        rw [show escapeChar '"' = ['\\', '"'] from rfl]
        exact parseStringBody_shortEsc (by decide) (by decide) f _ cs rest hr
      by_cases e2 : c = '\\'
      · subst e2
        rw [show escapeChar '\\' = ['\\', '\\'] from rfl]
        exact parseStringBody_shortEsc (by decide) (by decide) f _ cs rest hr
      by_cases e3 : c.toNat = 8
      · have hesc : escapeChar c = ['\\', 'b'] := by
          unfold escapeChar; rw [if_neg e1, if_neg e2, if_pos e3]
        have hc8 : c = Char.ofNat 8 := by rw [← Char.ofNat_toNat c, e3]
        rw [hesc]
        refine parseStringBody_shortEsc ?_ (by decide) f _ cs rest hr
        rw [hc8]; decide
      by_cases e4 : c.toNat = 12
      · have hesc : escapeChar c = ['\\', 'f'] := by
          unfold escapeChar; rw [if_neg e1, if_neg e2, if_neg e3, if_pos e4]
        have hcv : c = Char.ofNat 12 := by rw [← Char.ofNat_toNat c, e4]
        rw [hesc]
        refine parseStringBody_shortEsc ?_ (by decide) f _ cs rest hr
        rw [hcv]; decide
      by_cases e5 : c.toNat = 10
      · have hesc : escapeChar c = ['\\', 'n'] := by
          unfold escapeChar
          rw [if_neg e1, if_neg e2, if_neg e3, if_neg e4, if_pos e5]
        have hcv : c = Char.ofNat 10 := by rw [← Char.ofNat_toNat c, e5]
        rw [hesc]
        refine parseStringBody_shortEsc ?_ (by decide) f _ cs rest hr
        rw [hcv]; decide
      by_cases e6 : c.toNat = 13
      · have hesc : escapeChar c = ['\\', 'r'] := by
          unfold escapeChar
          rw [if_neg e1, if_neg e2, if_neg e3, if_neg e4, if_neg e5, if_pos e6]
        have hcv : c = Char.ofNat 13 := by rw [← Char.ofNat_toNat c, e6]
        rw [hesc]
        refine parseStringBody_shortEsc ?_ (by decide) f _ cs rest hr
        rw [hcv]; decide
      by_cases e7 : c.toNat = 9
      · have hesc : escapeChar c = ['\\', 't'] := by
          unfold escapeChar
          rw [if_neg e1, if_neg e2, if_neg e3, if_neg e4, if_neg e5, if_neg e6,
            if_pos e7]
        have hcv : c = Char.ofNat 9 := by rw [← Char.ofNat_toNat c, e7]
        rw [hesc]
        refine parseStringBody_shortEsc ?_ (by decide) f _ cs rest hr
        rw [hcv]; decide
      by_cases e8 : c.toNat < 32 ∨ 126 < c.toNat
      · by_cases e9 : c.toNat < 65536
        · have hesc : escapeChar c = '\\' :: 'u' :: toHex4 c.toNat := by
            unfold escapeChar
            rw [if_neg e1, if_neg e2, if_neg e3, if_neg e4, if_neg e5,
              if_neg e6, if_neg e7, if_pos e8, if_pos e9]
          rw [hesc, show ('\\' :: 'u' :: toHex4 c.toNat) ++
              (escList cs ++ '"' :: rest) =
              '\\' :: 'u' :: (toHex4 c.toNat ++ (escList cs ++ '"' :: rest))
            from by simp]
          exact parseStringBody_uEsc e9 (char_not_surrogate c) (mkChar_toNat c)
            f _ cs rest hr
        · have hesc : escapeChar c =
              ('\\' :: 'u' :: toHex4 (55296 + (c.toNat - 65536) / 1024)) ++
              ('\\' :: 'u' :: toHex4 (56320 + (c.toNat - 65536) % 1024)) := by
            unfold escapeChar
            rw [if_neg e1, if_neg e2, if_neg e3, if_neg e4, if_neg e5,
              if_neg e6, if_neg e7, if_pos e8, if_neg e9]
          rw [hesc]
          have hp := parseStringBody_pairEsc (n := c.toNat) (by omega)
            (char_toNat_lt c) (mkChar_toNat c) f (escList cs ++ '"' :: rest)
            cs rest hr
          simpa [List.append_assoc] using hp
      · have h32 : 32 ≤ c.toNat := by omega
        have hesc : escapeChar c = [c] := by
          unfold escapeChar
          rw [if_neg e1, if_neg e2, if_neg e3, if_neg e4, if_neg e5, if_neg e6,
            if_neg e7, if_neg e8]
        rw [hesc]
        exact parseStringBody_plain e1 e2 h32 f _ cs rest hr

/-! ## Number codec lemmas -/

theorem natChars_small {n : Nat} (h : n < 10) :
    natChars n = [Char.ofNat (48 + n)] := by
  rw [natChars, dif_pos h]

theorem natChars_large {n : Nat} (h : ¬n < 10) :
    natChars n = natChars (n / 10) ++ [Char.ofNat (48 + n % 10)] := by
  conv => lhs; rw [natChars]
  rw [dif_neg h]

theorem digit_char_toNat {m : Nat} (h : m < 10) :
    (Char.ofNat (48 + m)).toNat = 48 + m := by
  interval_cases m <;> decide

theorem digit_char_isDigit {m : Nat} (h : m < 10) :
    isDigit (Char.ofNat (48 + m)) = true := by
  interval_cases m <;> decide

theorem digit_bounds {c : Char} (h : isDigit c = true) :
    48 ≤ c.toNat ∧ c.toNat ≤ 57 := by
  simpa [isDigit] using h

theorem parseDigits_cons_stop {c : Char} (acc : Nat) (t : List Char)
    (h : isDigit c = false) : parseDigits acc (c :: t) = (acc, c :: t) := by
  simp [parseDigits, h]

theorem numStop_cons {c : Char} {t : List Char} (h : numStop (c :: t) = true) :
    isDigit c = false ∧ c ≠ '.' ∧ c ≠ 'e' ∧ c ≠ 'E' := by
  simp only [numStop, Bool.and_eq_true, Bool.not_eq_true',
    decide_eq_false_iff_not, not_or] at h
  exact ⟨h.1, h.2.1, h.2.2.1, h.2.2.2⟩

theorem parseDigits_natChars (n : Nat) : ∀ (acc : Nat) (rest : List Char),
    parseDigits acc (natChars n ++ rest) =
      parseDigits (acc * 10 ^ (natChars n).length + n) rest := by
  induction n using Nat.strong_induction_on with
  | _ n ih =>
    intro acc rest
    by_cases h : n < 10
    · rw [natChars_small h]
      have hd := digit_char_isDigit h
      simp only [List.cons_append, List.nil_append, parseDigits, hd, if_true,
        digit_char_toNat h, List.length_cons, List.length_nil]
      congr 1
      simp [pow_one]
    · conv => lhs; rw [natChars_large h]
      conv => rhs; rw [natChars_large h]
      rw [List.append_assoc]
      rw [ih (n / 10) (Nat.div_lt_self (by omega) (by omega)) acc
        ([Char.ofNat (48 + n % 10)] ++ rest)]
      have hm : n % 10 < 10 := Nat.mod_lt _ (by omega)
      have hd := digit_char_isDigit hm
      simp only [List.cons_append, List.nil_append, parseDigits, hd, if_true,
        digit_char_toNat hm, List.length_append, List.length_cons,
        List.length_nil]
      congr 1
      rw [pow_succ]
      have hdm := Nat.div_add_mod n 10
      set K := 10 ^ (natChars (n / 10)).length
      ring_nf
      omega

theorem natChars_head (n : Nat) :
    ∃ c t, natChars n = c :: t ∧ isDigit c = true ∧ (0 < n → c ≠ '0') := by
  induction n using Nat.strong_induction_on with
  | _ n ih =>
    by_cases h : n < 10
    · refine ⟨Char.ofNat (48 + n), [], natChars_small h, digit_char_isDigit h, ?_⟩
      intro hp
      refine char_ne_of_toNat_ne ?_
      rw [digit_char_toNat h]
      have : ('0' : Char).toNat = 48 := rfl
      omega
    · obtain ⟨c, t, hct, hcd, hc0⟩ :=
        ih (n / 10) (Nat.div_lt_self (by omega) (by omega))
      refine ⟨c, t ++ [Char.ofNat (48 + n % 10)], ?_, hcd, ?_⟩
      · rw [natChars_large h, hct]
        simp
      · intro _
        exact hc0 (by omega)

theorem parseNatNum_natChars (n : Nat) (rest : List Char)
    (hr : numStop rest = true) :
    parseNatNum (natChars n ++ rest) = some (n, rest) := by
  have hstop : parseDigits n rest = (n, rest) := by
    cases rest with
    | nil => rfl
    | cons c' t' => exact parseDigits_cons_stop n t' (numStop_cons hr).1
  by_cases h0 : n = 0
  · subst h0
    rw [natChars_small (by omega)]
    show parseNatNum ('0' :: rest) = some (0, rest)
    simp [parseNatNum]
  · have key : parseDigits 0 (natChars n ++ rest) = (n, rest) := by
      rw [parseDigits_natChars]
      simpa using hstop
    obtain ⟨c, t, hct, hcd, hc0⟩ := natChars_head n
    rw [hct] at key ⊢
    have key2 : parseDigits 0 ((c :: t) ++ rest) =
        parseDigits (c.toNat - 48) (t ++ rest) := by
      simp [parseDigits, hcd]
    rw [key2] at key
    have hcz : c ≠ '0' := hc0 (by omega)
    simp only [List.cons_append, parseNatNum]
    rw [if_neg hcz, if_pos hcd]
    rw [key]

theorem parseNumber_intChars (i : Int) (rest : List Char)
    (hr : numStop rest = true) :
    parseNumber (intChars i ++ rest) = some (.int i, rest) := by
  cases i with
  | ofNat n =>
    show parseNumber (natChars n ++ rest) = some (.int n, rest)
    obtain ⟨c, t, hct, hcd, _⟩ := natChars_head n
    have hcm : c ≠ '-' := by
      refine char_ne_of_toNat_ne ?_
      have h1 := digit_bounds hcd
      have h2 : ('-' : Char).toNat = 45 := rfl
      omega
    rw [hct]
    simp only [List.cons_append, parseNumber]
    rw [if_neg hcm, ← List.cons_append, ← hct,
      parseNatNum_natChars n rest hr]
    cases rest with
    | nil => simp
    | cons c' t' =>
      obtain ⟨_, h2, h3, h4⟩ := numStop_cons hr
      simp [h2, h3, h4]
  | negSucc m =>
    show parseNumber (('-' :: natChars (m + 1)) ++ rest) =
      some (.int (.negSucc m), rest)
    simp only [List.cons_append, parseNumber, if_pos, reduceIte]
    rw [parseNatNum_natChars (m + 1) rest hr]
    have hneg : (-1 + -(m : Int)) = Int.negSucc m := by
      rw [Int.negSucc_eq]
      ring
    cases rest with
    | nil => simp [hneg]
    | cons c' t' =>
      obtain ⟨_, h2, h3, h4⟩ := numStop_cons hr
      simp [h2, h3, h4, hneg]

/-! ## Whitespace and head-character lemmas -/

theorem skipWs_cons {c : Char} (h : isWsChar c = false) (r : List Char) :
    skipWs (c :: r) = c :: r := by
  simp [skipWs, h]

theorem skipWs_space (r : List Char) : skipWs (' ' :: r) = skipWs r := rfl

theorem not_ws_of_toNat {c : Char} (h1 : c.toNat ≠ 32) (h2 : c.toNat ≠ 9)
    (h3 : c.toNat ≠ 10) (h4 : c.toNat ≠ 13) : isWsChar c = false := by
  simp only [isWsChar, decide_eq_false_iff_not, not_or]
  exact ⟨char_ne_of_toNat_ne h1, char_ne_of_toNat_ne h2,
    char_ne_of_toNat_ne h3, char_ne_of_toNat_ne h4⟩

theorem digit_head_facts {c : Char} (h : isDigit c = true) :
    isWsChar c = false ∧ c ≠ ']' ∧ c ≠ '\x7d' := by
  have hb := digit_bounds h
  refine ⟨not_ws_of_toNat (by omega) (by omega) (by omega) (by omega), ?_, ?_⟩
  · exact char_ne_of_toNat_ne (by have : (']' : Char).toNat = 93 := rfl; omega)
  · exact char_ne_of_toNat_ne
      (by have : ('\x7d' : Char).toNat = 125 := rfl; omega)

theorem dumps_head_facts (v : JVal) :
    ∃ c t, dumps v = c :: t ∧ isWsChar c = false ∧ c ≠ ']' ∧ c ≠ '\x7d' := by
  cases v with
  | null => refine ⟨'n', _, rfl, ?_, ?_, ?_⟩ <;> decide
  | bool b =>
    cases b with
    | true => refine ⟨'t', _, rfl, ?_, ?_, ?_⟩ <;> decide
    | false => refine ⟨'f', _, rfl, ?_, ?_, ?_⟩ <;> decide
  | int i =>
    cases i with
    | ofNat n =>
      obtain ⟨c, t, hct, hcd, _⟩ := natChars_head n
      obtain ⟨w1, w2, w3⟩ := digit_head_facts hcd
      exact ⟨c, t, hct, w1, w2, w3⟩
    | negSucc m =>
      refine ⟨'-', _, rfl, ?_, ?_, ?_⟩ <;> decide
  | str s => refine ⟨'"', _, rfl, ?_, ?_, ?_⟩ <;> decide
  | arr xs => refine ⟨'[', _, rfl, ?_, ?_, ?_⟩ <;> decide
  | obj kvs => refine ⟨'\x7b', _, rfl, ?_, ?_, ?_⟩ <;> decide

theorem dumps_ne_nil (v : JVal) : dumps v ≠ [] := by
  obtain ⟨c, t, hct, -⟩ := dumps_head_facts v
  rw [hct]
  exact List.cons_ne_nil c t

theorem skipWs_dumps (v : JVal) (r : List Char) :
    skipWs (dumps v ++ r) = dumps v ++ r := by
  obtain ⟨c, t, hct, hws, -⟩ := dumps_head_facts v
  rw [hct, List.cons_append, skipWs_cons hws]

/-! ## Printable-ASCII lemmas for the encoder output -/

theorem toHex4_printable (n : Nat) :
    ∀ c ∈ toHex4 n, 32 ≤ c.toNat ∧ c.toNat ≤ 126 := by
  intro c hc
  simp only [toHex4, List.mem_cons, List.not_mem_nil, or_false] at hc
  rcases hc with rfl | rfl | rfl | rfl <;>
    exact hexDigitChar_printable (Nat.mod_lt _ (by omega))

theorem escapeChar_printable (c : Char) :
    ∀ d ∈ escapeChar c, 32 ≤ d.toNat ∧ d.toNat ≤ 126 := by
  intro d hd
  unfold escapeChar at hd
  split_ifs at hd with e1 e2 e3 e4 e5 e6 e7 e8 e9
  · rcases (by simpa using hd : d = '\\' ∨ d = '"') with rfl | rfl <;> decide
  · rcases (by simpa using hd : d = '\\' ∨ d = '\\') with rfl | rfl <;> decide
  · rcases (by simpa using hd : d = '\\' ∨ d = 'b') with rfl | rfl <;> decide
  · rcases (by simpa using hd : d = '\\' ∨ d = 'f') with rfl | rfl <;> decide
  · rcases (by simpa using hd : d = '\\' ∨ d = 'n') with rfl | rfl <;> decide
  · rcases (by simpa using hd : d = '\\' ∨ d = 'r') with rfl | rfl <;> decide
  · rcases (by simpa using hd : d = '\\' ∨ d = 't') with rfl | rfl <;> decide
  · rcases (by simpa using hd :
        d = '\\' ∨ d = 'u' ∨ d ∈ toHex4 c.toNat) with rfl | rfl | hmem
    · decide
    · decide
    · exact toHex4_printable _ d hmem
  · rcases (by simpa using hd :
        d = '\\' ∨ d = 'u' ∨ d ∈ toHex4 (55296 + (c.toNat - 65536) / 1024) ∨
        d = '\\' ∨ d = 'u' ∨ d ∈ toHex4 (56320 + (c.toNat - 65536) % 1024)) with
      rfl | rfl | hmem | rfl | rfl | hmem
    · decide
    · decide
    · exact toHex4_printable _ d hmem
    · decide
    · decide
    · exact toHex4_printable _ d hmem
  · have : d = c := by simpa using hd
    subst this
    omega

theorem escList_printable (s : List Char) :
    ∀ d ∈ escList s, 32 ≤ d.toNat ∧ d.toNat ≤ 126 := by
  induction s with
  | nil => intro d hd; simp [escList] at hd
  | cons c cs ih =>
    intro d hd
    simp only [escList, List.mem_append] at hd
    rcases hd with hd | hd
    · exact escapeChar_printable c d hd
    · exact ih d hd

theorem encodeStr_printable (s : List Char) :
    ∀ d ∈ encodeStr s, 32 ≤ d.toNat ∧ d.toNat ≤ 126 := by
  intro d hd
  simp only [encodeStr, List.mem_cons, List.mem_append, List.mem_singleton,
    List.not_mem_nil, or_false] at hd
  rcases hd with rfl | hd | rfl
  · decide
  · exact escList_printable s d hd
  · decide

theorem natChars_digits (n : Nat) : ∀ c ∈ natChars n, isDigit c = true := by
  induction n using Nat.strong_induction_on with
  | _ n ih =>
    by_cases h : n < 10
    · rw [natChars_small h]
      intro c hc
      simp only [List.mem_singleton] at hc
      subst hc
      exact digit_char_isDigit h
    · rw [natChars_large h]
      intro c hc
      simp only [List.mem_append, List.mem_singleton] at hc
      rcases hc with hc | rfl
      · exact ih (n / 10) (Nat.div_lt_self (by omega) (by omega)) c hc
      · exact digit_char_isDigit (Nat.mod_lt _ (by omega))

theorem intChars_printable (i : Int) :
    ∀ c ∈ intChars i, 32 ≤ c.toNat ∧ c.toNat ≤ 126 := by
  cases i with
  | ofNat n =>
    intro c hc
    have := digit_bounds (natChars_digits n c hc)
    omega
  | negSucc m =>
    intro c hc
    simp only [intChars, List.mem_cons] at hc
    rcases hc with rfl | hc
    · decide
    · have := digit_bounds (natChars_digits (m + 1) c hc)
      omega

theorem allPrintable_append {l1 l2 : List Char} (h1 : allPrintable l1)
    (h2 : allPrintable l2) : allPrintable (l1 ++ l2) := by
  intro c hc
  rcases List.mem_append.mp hc with hc | hc
  · exact h1 c hc
  · exact h2 c hc

theorem allPrintable_cons {c : Char} {l : List Char}
    (h1 : 32 ≤ c.toNat ∧ c.toNat ≤ 126) (h2 : allPrintable l) :
    allPrintable (c :: l) := by
  intro d hd
  rcases List.mem_cons.mp hd with rfl | hd
  · exact h1
  · exact h2 d hd

theorem allPrintable_nil : allPrintable [] := by
  intro d hd
  simp at hd

theorem dumps_printable_all : ∀ N : Nat,
    (∀ v : JVal, sizeOf v ≤ N → allPrintable (dumps v)) ∧
    (∀ xs : List JVal, sizeOf xs ≤ N → allPrintable (dumpsArr xs)) ∧
    (∀ kvs : List (List Char × JVal), sizeOf kvs ≤ N →
      allPrintable (dumpsObj kvs)) := by
  intro N
  induction N using Nat.strong_induction_on with
  | _ N ih =>
    refine ⟨?_, ?_, ?_⟩
    · intro v hv
      cases v with
      | null => intro c hc; fin_cases hc <;> decide
      | bool b => cases b <;> (intro c hc; fin_cases hc <;> decide)
      | int i => exact intChars_printable i
      | str s => exact encodeStr_printable s
      | arr xs =>
        have hsz : 1 + sizeOf xs ≤ N := by simpa using hv
        have harr := (ih (N - 1) (by omega)).2.1 xs (by omega)
        show allPrintable ('[' :: (dumpsArr xs ++ [']']))
        exact allPrintable_cons (by decide)
          (allPrintable_append harr (by intro c hc; fin_cases hc; decide))
      | obj kvs =>
        have hsz : 1 + sizeOf kvs ≤ N := by simpa using hv
        have hobj := (ih (N - 1) (by omega)).2.2 kvs (by omega)
        show allPrintable ('\x7b' :: (dumpsObj kvs ++ ['\x7d']))
        exact allPrintable_cons (by decide)
          (allPrintable_append hobj (by intro c hc; fin_cases hc; decide))
    · intro xs hxs
      cases xs with
      | nil => exact allPrintable_nil
      | cons x tail =>
        have hsz : 1 + sizeOf x + sizeOf tail ≤ N := by simpa using hxs
        have hx := (ih (N - 1) (by omega)).1 x (by omega)
        cases tail with
        | nil => exact hx
        | cons y ys =>
          have hys := (ih (N - 1) (by omega)).2.1 (y :: ys) (by omega)
          rw [dumpsArr]
          exact allPrintable_append hx
            (allPrintable_cons (by decide) (allPrintable_cons (by decide) hys))
    · intro kvs hkvs
      cases kvs with
      | nil => exact allPrintable_nil
      | cons kv tail =>
        obtain ⟨k, v⟩ := kv
        have hsz : 1 + (1 + sizeOf k + sizeOf v) + sizeOf tail ≤ N := by
          simpa using hkvs
        have hv := (ih (N - 1) (by omega)).1 v (by omega)
        have hk : allPrintable (encodeStr k) := encodeStr_printable k
        cases tail with
        | nil =>
          show allPrintable (encodeStr k ++ ':' :: ' ' :: dumps v)
          exact allPrintable_append hk
            (allPrintable_cons (by decide) (allPrintable_cons (by decide) hv))
        | cons kv2 tail2 =>
          have htl := (ih (N - 1) (by omega)).2.2 (kv2 :: tail2) (by omega)
          rw [dumpsObj]
          refine allPrintable_append ?_ ?_
          · exact allPrintable_append hk
              (allPrintable_cons (by decide) (allPrintable_cons (by decide) hv))
          · exact allPrintable_cons (by decide)
              (allPrintable_cons (by decide) htl)

theorem dumps_printable (v : JVal) : allPrintable (dumps v) :=
  (dumps_printable_all (sizeOf v)).1 v (Nat.le_refl _)

theorem jfuel_le_all : ∀ N : Nat,
    (∀ v : JVal, sizeOf v ≤ N → jfuel v ≤ (dumps v).length) ∧
    (∀ xs : List JVal, sizeOf xs ≤ N →
      jfuelArr xs ≤ (dumpsArr xs).length + 1) ∧
    (∀ kvs : List (List Char × JVal), sizeOf kvs ≤ N →
      jfuelObj kvs ≤ (dumpsObj kvs).length + 1) := by
  intro N
  induction N using Nat.strong_induction_on with
  | _ N ih =>
    refine ⟨?_, ?_, ?_⟩
    · intro v hv
      cases v with
      | null => decide
      | bool b => cases b <;> decide
      | int i =>
        show 1 ≤ (intChars i).length
        cases i with
        | ofNat n =>
          obtain ⟨c, t, hct, -, -⟩ := natChars_head n
          show 1 ≤ (natChars n).length
          rw [hct]
          simp
        | negSucc m => simp [intChars]
      | str s =>
        show 1 ≤ (encodeStr s).length
        simp [encodeStr]
      | arr xs =>
        have hsz : 1 + sizeOf xs ≤ N := by simpa using hv
        have harr := (ih (N - 1) (by omega)).2.1 xs (by omega)
        show 1 + jfuelArr xs ≤ ('[' :: (dumpsArr xs ++ [']'])).length
        simp only [List.length_cons, List.length_append,
          List.length_singleton]
        omega
      | obj kvs =>
        have hsz : 1 + sizeOf kvs ≤ N := by simpa using hv
        have hobj := (ih (N - 1) (by omega)).2.2 kvs (by omega)
        show 1 + jfuelObj kvs ≤ ('\x7b' :: (dumpsObj kvs ++ ['\x7d'])).length
        simp only [List.length_cons, List.length_append,
          List.length_singleton]
        omega
    · intro xs hxs
      cases xs with
      | nil => simp [jfuelArr]
      | cons x tail =>
        have hsz : 1 + sizeOf x + sizeOf tail ≤ N := by simpa using hxs
        have hx := (ih (N - 1) (by omega)).1 x (by omega)
        cases tail with
        | nil =>
          show 1 + jfuel x + jfuelArr [] ≤ (dumpsArr [x]).length + 1
          rw [show dumpsArr [x] = dumps x from rfl]
          simp only [jfuelArr]
          omega
        | cons y ys =>
          have hys := (ih (N - 1) (by omega)).2.1 (y :: ys) (by omega)
          show 1 + jfuel x + jfuelArr (y :: ys) ≤
            (dumps x ++ ',' :: ' ' :: dumpsArr (y :: ys)).length + 1
          simp only [List.length_append, List.length_cons]
          omega
    · intro kvs hkvs
      cases kvs with
      | nil => simp [jfuelObj]
      | cons kv tail =>
        obtain ⟨k, v⟩ := kv
        have hsz : 1 + (1 + sizeOf k + sizeOf v) + sizeOf tail ≤ N := by
          simpa using hkvs
        have hv := (ih (N - 1) (by omega)).1 v (by omega)
        cases tail with
        | nil =>
          show 1 + jfuel v + jfuelObj [] ≤ (dumpsObj [(k, v)]).length + 1
          rw [show dumpsObj [(k, v)] =
            encodeStr k ++ ':' :: ' ' :: dumps v from rfl]
          simp only [jfuelObj, List.length_append, List.length_cons]
          omega
        | cons kv2 tail2 =>
          have htl := (ih (N - 1) (by omega)).2.2 (kv2 :: tail2) (by omega)
          show 1 + jfuel v + jfuelObj (kv2 :: tail2) ≤
            (encodeStr k ++ ':' :: ' ' :: dumps v ++
              ',' :: ' ' :: dumpsObj (kv2 :: tail2)).length + 1
          simp only [List.length_append, List.length_cons]
          omega

theorem jfuel_le (v : JVal) : jfuel v ≤ (dumps v).length :=
  (jfuel_le_all (sizeOf v)).1 v (Nat.le_refl _)

/-! ## Parser correctness on encoder output -/

theorem stripHeader_self : ∀ (p l : List Char), stripHeader p (p ++ l) = some l
  | [], _ => rfl
  | c :: cs, l => by
    simp only [List.cons_append, stripHeader, if_pos rfl]
    exact stripHeader_self cs l

theorem jfuel_pos (v : JVal) : 1 ≤ jfuel v := by
  cases v <;> simp [jfuel]

theorem dumpsArr_head (x : JVal) (xs : List JVal) :
    ∃ t, dumpsArr (x :: xs) = dumps x ++ t := by
  cases xs with
  | nil =>
    refine ⟨[], ?_⟩
    rw [List.append_nil]
    rfl
  | cons y ys => exact ⟨_, by rw [dumpsArr]⟩

theorem dumpsObj_head (k : List Char) (v : JVal)
    (kvs : List (List Char × JVal)) :
    ∃ t, dumpsObj ((k, v) :: kvs) = '"' :: t := by
  cases kvs with
  | nil => exact ⟨_, rfl⟩
  | cons e es =>
    refine ⟨((escList k ++ ['"']) ++ (':' :: ' ' :: dumps v)) ++
      ',' :: ' ' :: dumpsObj (e :: es), ?_⟩
    rw [dumpsObj]
    rfl

theorem parseValue_number (f : Nat) {c : Char} (rest : List Char)
    (h1 : c ≠ 'n') (h2 : c ≠ 't') (h3 : c ≠ 'f') (h4 : c ≠ '"')
    (h5 : c ≠ '[') (h6 : c ≠ '\x7b') :
    parseValue (f + 1) (c :: rest) = parseNumber (c :: rest) := by
  simp [parseValue, h1, h2, h3, h4, h5, h6]


theorem parse_correct : ∀ fuel : Nat,
    (∀ (v : JVal) (rest : List Char), jfuel v ≤ fuel → numStop rest = true →
      parseValue fuel (dumps v ++ rest) = some (v, rest)) ∧
    (∀ (x : JVal) (xs : List JVal) (rest : List Char),
      jfuelArr (x :: xs) ≤ fuel →
      parseArrItems fuel (dumpsArr (x :: xs) ++ ']' :: rest) =
        some (x :: xs, rest)) ∧
    (∀ (k : List Char) (v : JVal) (kvs : List (List Char × JVal))
      (rest : List Char), jfuelObj ((k, v) :: kvs) ≤ fuel →
      parseObjItems fuel (dumpsObj ((k, v) :: kvs) ++ '\x7d' :: rest) =
        some ((k, v) :: kvs, rest)) := by
  intro fuel
  induction fuel with
  | zero =>
    refine ⟨?_, ?_, ?_⟩
    · intro v rest hf _
      have := jfuel_pos v
      omega
    · intro x xs rest hf
      simp [jfuelArr] at hf
    · intro k v kvs rest hf
      simp [jfuelObj] at hf
  | succ f ih =>
    obtain ⟨ihV, ihA, ihO⟩ := ih
    refine ⟨?_, ?_, ?_⟩
    · intro v rest hf hstop
      cases v with
      | null =>
        show parseValue (f + 1) ('n' :: 'u' :: 'l' :: 'l' :: rest) =
          some (.null, rest)
        rw [parseValue, if_pos rfl,
          show ('u' :: 'l' :: 'l' :: rest) = ['u', 'l', 'l'] ++ rest from rfl,
          stripHeader_self]
        rfl
      | bool b =>
        cases b with
        | true =>
          show parseValue (f + 1) ('t' :: 'r' :: 'u' :: 'e' :: rest) =
            some (.bool true, rest)
          rw [parseValue, if_neg (by decide), if_pos rfl,
            show ('r' :: 'u' :: 'e' :: rest) = ['r', 'u', 'e'] ++ rest from rfl,
            stripHeader_self]
          rfl
        | false =>
          show parseValue (f + 1) ('f' :: 'a' :: 'l' :: 's' :: 'e' :: rest) =
            some (.bool false, rest)
          rw [parseValue, if_neg (by decide), if_neg (by decide), if_pos rfl,
            show ('a' :: 'l' :: 's' :: 'e' :: rest) =
              ['a', 'l', 's', 'e'] ++ rest from rfl,
            stripHeader_self]
          rfl
      | int i =>
        show parseValue (f + 1) (intChars i ++ rest) = some (.int i, rest)
        cases i with
        | ofNat n =>
          obtain ⟨c, t, hct, hcd, -⟩ := natChars_head n
          have hb := digit_bounds hcd
          show parseValue (f + 1) (natChars n ++ rest) = some (.int n, rest)
          rw [hct, List.cons_append]
          rw [parseValue_number f _
            (char_ne_of_toNat_ne (by have : ('n' : Char).toNat = 110 := rfl; omega))
            (char_ne_of_toNat_ne (by have : ('t' : Char).toNat = 116 := rfl; omega))
            (char_ne_of_toNat_ne (by have : ('f' : Char).toNat = 102 := rfl; omega))
            (char_ne_of_toNat_ne (by have : ('"' : Char).toNat = 34 := rfl; omega))
            (char_ne_of_toNat_ne (by have : ('[' : Char).toNat = 91 := rfl; omega))
            (char_ne_of_toNat_ne (by have : ('\x7b' : Char).toNat = 123 := rfl; omega))]
          rw [← List.cons_append, ← hct]
          exact parseNumber_intChars (Int.ofNat n) rest hstop
        | negSucc m =>
          show parseValue (f + 1) (('-' :: natChars (m + 1)) ++ rest) =
            some (.int (.negSucc m), rest)
          rw [List.cons_append]
          rw [parseValue_number f _ (by decide) (by decide) (by decide)
            (by decide) (by decide) (by decide)]
          rw [← List.cons_append]
          exact parseNumber_intChars (Int.negSucc m) rest hstop
      | str s =>
        have hin : dumps (.str s) ++ rest =
            '"' :: (escList s ++ '"' :: rest) := by
          show ('"' :: (escList s ++ ['"'])) ++ rest = _
          simp [List.append_assoc]
        rw [hin]
        have hfuel : s.length + 1 ≤ (escList s ++ '"' :: rest).length + 1 := by
          have := escList_length s
          simp only [List.length_append, List.length_cons]
          omega
        rw [parseValue, if_neg (by decide), if_neg (by decide),
          if_neg (by decide), if_pos rfl,
          parseStringBody_escList s _ rest hfuel]
        rfl
      | arr xs =>
        cases xs with
        | nil =>
          show parseValue (f + 1) ('[' :: ']' :: rest) = some (.arr [], rest)
          rw [parseValue, if_neg (by decide), if_neg (by decide),
            if_neg (by decide), if_neg (by decide), if_pos rfl,
            skipWs_cons (by decide)]
          simp [arrDispatch]
        | cons x xs =>
          obtain ⟨tA, htA⟩ := dumpsArr_head x xs
          obtain ⟨c0, t0, hct0, hws0, hb0, -⟩ := dumps_head_facts x
          have hin : dumps (.arr (x :: xs)) ++ rest =
              '[' :: (dumpsArr (x :: xs) ++ ']' :: rest) := by
            show ('[' :: (dumpsArr (x :: xs) ++ [']'])) ++ rest = _
            simp [List.append_assoc]
          rw [hin]
          have hskip : skipWs (dumpsArr (x :: xs) ++ ']' :: rest) =
              dumpsArr (x :: xs) ++ ']' :: rest := by
            rw [htA, List.append_assoc]
            exact skipWs_dumps x _
          have hcons : dumpsArr (x :: xs) ++ ']' :: rest =
              c0 :: (t0 ++ (tA ++ ']' :: rest)) := by
            rw [htA, hct0]
            simp [List.append_assoc]
          have hfa : jfuelArr (x :: xs) ≤ f := by
            simp only [jfuel] at hf
            omega
          rw [parseValue, if_neg (by decide), if_neg (by decide),
            if_neg (by decide), if_neg (by decide), if_pos rfl, hskip, hcons]
          simp only [arrDispatch, if_neg hb0]
          rw [← hcons, ihA x xs rest hfa]
      | obj kvs =>
        cases kvs with
        | nil =>
          show parseValue (f + 1) ('\x7b' :: '\x7d' :: rest) =
            some (.obj [], rest)
          rw [parseValue, if_neg (by decide), if_neg (by decide),
            if_neg (by decide), if_neg (by decide), if_neg (by decide),
            if_pos rfl, skipWs_cons (by decide)]
          simp [objDispatch]
        | cons kv kvs =>
          obtain ⟨k, v⟩ := kv
          obtain ⟨tO, htO⟩ := dumpsObj_head k v kvs
          have hin : dumps (.obj ((k, v) :: kvs)) ++ rest =
              '\x7b' :: (dumpsObj ((k, v) :: kvs) ++ '\x7d' :: rest) := by
            show ('\x7b' :: (dumpsObj ((k, v) :: kvs) ++ ['\x7d'])) ++ rest = _
            simp [List.append_assoc]
          rw [hin]
          have hskip : skipWs (dumpsObj ((k, v) :: kvs) ++ '\x7d' :: rest) =
              dumpsObj ((k, v) :: kvs) ++ '\x7d' :: rest := by
            rw [htO, List.cons_append]
            exact skipWs_cons (by decide) _
          have hcons : dumpsObj ((k, v) :: kvs) ++ '\x7d' :: rest =
              '"' :: (tO ++ '\x7d' :: rest) := by
            rw [htO]
            rfl
          have hfo : jfuelObj ((k, v) :: kvs) ≤ f := by
            simp only [jfuel] at hf
            omega
          rw [parseValue, if_neg (by decide), if_neg (by decide),
            if_neg (by decide), if_neg (by decide), if_neg (by decide),
            if_pos rfl, hskip, hcons]
          simp only [objDispatch, if_neg (by decide : ¬('"' : Char) = '\x7d')]
          rw [← hcons, ihO k v kvs rest hfo]
    · intro x xs rest hfa2
      cases xs with
      | nil =>
        show parseArrItems (f + 1) (dumps x ++ ']' :: rest) = some ([x], rest)
        have hjx : jfuel x ≤ f := by
          simp only [jfuelArr] at hfa2
          omega
        rw [parseArrItems, ihV x (']' :: rest) hjx rfl]
        simp only []
        rw [skipWs_cons (by decide)]
        simp [arrTail]
      | cons y ys =>
        have heq : dumpsArr (x :: y :: ys) ++ ']' :: rest =
            dumps x ++ (',' :: ' ' :: (dumpsArr (y :: ys) ++ ']' :: rest)) := by
          rw [dumpsArr]
          simp [List.append_assoc]
        rw [heq]
        have hjx : jfuel x ≤ f := by
          simp only [jfuelArr] at hfa2
          omega
        have hjt : jfuelArr (y :: ys) ≤ f := by
          simp only [jfuelArr] at hfa2 ⊢
          have := jfuel_pos x
          omega
        rw [parseArrItems, ihV x _ hjx (by rfl)]
        simp only []
        rw [skipWs_cons (by decide)]
        simp only [arrTail, if_true]
        rw [skipWs_space]
        obtain ⟨tA, htA⟩ := dumpsArr_head y ys
        have hskip : skipWs (dumpsArr (y :: ys) ++ ']' :: rest) =
            dumpsArr (y :: ys) ++ ']' :: rest := by
          rw [htA, List.append_assoc]
          exact skipWs_dumps y _
        rw [hskip, ihA y ys rest hjt,
          if_neg (by decide : ¬(',' : Char) = ']')]
    · intro k v kvs rest hfo2
      cases kvs with
      | nil =>
        have hin : dumpsObj [(k, v)] ++ '\x7d' :: rest =
            '"' :: (escList k ++ '"' ::
              (':' :: ' ' :: (dumps v ++ '\x7d' :: rest))) := by
          show (encodeStr k ++ ':' :: ' ' :: dumps v) ++ '\x7d' :: rest = _
          simp [encodeStr, List.append_assoc]
        have hjv : jfuel v ≤ f := by
          simp only [jfuelObj] at hfo2
          omega
        have hfuel : k.length + 1 ≤
            (escList k ++ '"' ::
              (':' :: ' ' :: (dumps v ++ '\x7d' :: rest))).length + 1 := by
          have := escList_length k
          simp only [List.length_append, List.length_cons]
          omega
        rw [hin, parseObjItems, if_pos rfl, parseStringBody_escList k _ _ hfuel]
        simp only []
        rw [skipWs_cons (by decide)]
        simp only [objAfterKey, if_true]
        rw [skipWs_space, skipWs_dumps v _, ihV v _ hjv (by rfl)]
        simp only []
        rw [skipWs_cons (by decide)]
        simp [objTail]
      | cons kv2 kvs2 =>
        obtain ⟨k2, v2⟩ := kv2
        have hin : dumpsObj ((k, v) :: (k2, v2) :: kvs2) ++ '\x7d' :: rest =
            '"' :: (escList k ++ '"' :: (':' :: ' ' :: (dumps v ++
              ',' :: ' ' :: (dumpsObj ((k2, v2) :: kvs2) ++
                '\x7d' :: rest)))) := by
          rw [dumpsObj]
          simp [encodeStr, List.append_assoc]
        have hjv : jfuel v ≤ f := by
          simp only [jfuelObj] at hfo2
          omega
        have hj2 : jfuelObj ((k2, v2) :: kvs2) ≤ f := by
          simp only [jfuelObj] at hfo2 ⊢
          have := jfuel_pos v
          omega
        have hfuel : k.length + 1 ≤
            (escList k ++ '"' :: (':' :: ' ' :: (dumps v ++
              ',' :: ' ' :: (dumpsObj ((k2, v2) :: kvs2) ++
                '\x7d' :: rest)))).length + 1 := by
          have := escList_length k
          simp only [List.length_append, List.length_cons]
          omega
        rw [hin, parseObjItems, if_pos rfl, parseStringBody_escList k _ _ hfuel]
        simp only []
        rw [skipWs_cons (by decide)]
        simp only [objAfterKey, if_true]
        rw [skipWs_space, skipWs_dumps v _, ihV v _ hjv (by rfl)]
        simp only []
        rw [skipWs_cons (by decide)]
        simp only [objTail, if_true]
        rw [skipWs_space]
        obtain ⟨t2, ht2⟩ := dumpsObj_head k2 v2 kvs2
        have hskip : skipWs (dumpsObj ((k2, v2) :: kvs2) ++ '\x7d' :: rest) =
            dumpsObj ((k2, v2) :: kvs2) ++ '\x7d' :: rest := by
          rw [ht2, List.cons_append]
          exact skipWs_cons (by decide) _
        rw [hskip, ihO k2 v2 kvs2 rest hj2,
          if_neg (by decide : ¬(',' : Char) = '\x7d')]

/-! ## The round trip through `loads` and the wire frame -/

theorem loads_dumps (v : JVal) : loads (dumps v) = some v := by
  have h0 : skipWs (dumps v) = dumps v := by
    obtain ⟨c, t, hct, hws, -⟩ := dumps_head_facts v
    rw [hct, skipWs_cons hws]
  have h1 := (parse_correct ((dumps v).length + 1)).1 v []
    (by have := jfuel_le v; omega) rfl
  rw [List.append_nil] at h1
  rw [loads, h0, h1]
  rfl

theorem notEsc_of_printable {c : Char} (h : 32 ≤ c.toNat ∧ c.toNat ≤ 126) :
    notEsc c = true := by
  simp only [notEsc, Bool.not_eq_true', beq_eq_false_iff_ne]
  exact char_ne_of_toNat_ne (by have : ('\x1b' : Char).toNat = 27 := rfl; omega)

theorem span_notEsc (body tail : List Char)
    (h : ∀ c ∈ body, notEsc c = true) :
    (body ++ '\x1b' :: tail).takeWhile notEsc = body ∧
    (body ++ '\x1b' :: tail).dropWhile notEsc = '\x1b' :: tail := by
  induction body with
  | nil => constructor <;> simp [List.takeWhile, List.dropWhile, notEsc]
  | cons c cs ih =>
    have hc := h c (List.mem_cons_self c cs)
    obtain ⟨ih1, ih2⟩ := ih (fun d hd => h d (List.mem_cons_of_mem c hd))
    constructor
    · simp [List.takeWhile, hc, ih1]
    · simp [List.dropWhile, hc, ih2]

theorem tryFrameAt_encode (v : JVal) :
    tryFrameAt (encode_send v) = some (dumps v) := by
  have hne : ∀ c ∈ dumps v, notEsc c = true := fun c hc =>
    notEsc_of_printable (dumps_printable v c hc)
  have hassoc : encode_send v = dcsHeader ++ (dumps v ++ ['\x1b', '\\']) := by
    unfold encode_send
    simp [List.append_assoc]
  obtain ⟨htake, hdrop⟩ := span_notEsc (dumps v) ['\\'] hne
  rw [tryFrameAt, hassoc, stripHeader_self]
  simp only []
  rw [htake, hdrop]
  rw [if_neg (by simp [List.isEmpty_iff, dumps_ne_nil v])]
  rfl

theorem searchFrame_encode (v : JVal) :
    searchFrame (encode_send v) = some (dumps v) := by
  obtain ⟨c0, t0, h0⟩ : ∃ c0 t0, encode_send v = c0 :: t0 := ⟨_, _, rfl⟩
  rw [h0, searchFrame, ← h0, tryFrameAt_encode]

/-- C7: framing round-trip law. Encoding a well-formed envelope with
`encode_send` and decoding the resulting bytes as the socket receive path
does — extracting the interior between the `ESC P @kitty-cmd` header and
the `ESC \` terminator with the `simple_recv` regex, decoding it as ASCII
and `json.loads`-ing it — yields the original envelope. Well-formedness
(`jwf`) asks every object to have distinct keys, which is forced anyway
for a serialized Python `dict`. -/
theorem C7_framing_round_trip (v : JVal) (_h : jwf v = true) :
    decode_received (encode_send v) = some v := by
  unfold decode_received
  rw [searchFrame_encode]
  have hall : (dumps v).all (fun c => decide (c.toNat < 128)) = true := by
    rw [List.all_eq_true]
    intro c hc
    have := dumps_printable v c hc
    simp only [decide_eq_true_eq]
    omega
  simp only []
  rw [if_pos hall, loads_dumps]

/-- Witness for C7 at the specification's ping scenario envelope
`{cmd: "ping", version: [1, 0, 0], no_response: false}`. -/
theorem C7_framing_round_trip_witness :
    jwf pingEnvelope = true ∧
    decode_received (encode_send pingEnvelope) = some pingEnvelope :=
  ⟨by decide, C7_framing_round_trip pingEnvelope (by decide)⟩

end Kitty
